import Mathlib

/-!
Verification of the `giggle` whisper-service worker node.

This file shallowly embeds the parts of the repository that the frozen
claims are about:

* `services/text_packer.py` (`SimplifiedTextPacker.pack_multiple_translations`
  and `SimplifiedTextPacker.query_text`): the packed translation blob format;
* `services/translation_service.py` (`TranslationService._translate_single`
  and `_translate_with_dict`): the provider chain and its literal fallback;
* `services/node_manager.py` (`NodeManager._update_node_ranking`): the node
  score published into the ranking sorted set;
* `services/database_service.py` (`DatabaseService.update_task_status`): the
  column map of the terminal-status UPDATE.

Byte strings are embedded as `List Nat` (each entry one byte), machine
integers as `Nat` with explicit `% 2 ^ w` where the code serializes them,
dictionaries as association lists in insertion order, and fallible paths as
`Option` / `Except`.  External library calls of the Python runtime
(`hashlib.md5`, `zlib.compress` / `zlib.decompress`, `str.encode('utf-8')`,
`bytes.decode('utf-8')`) are parameters of the embedding, bundled in `Ext`;
theorems assume only the properties of these externals that they need
(hash width, injectivity on the finitely many language codes involved, and
the compress/decode round trip on the finitely many packed texts).
-/

namespace Giggle

/-! ### Byte-level primitives

`struct.pack('<I', v)` / `struct.pack('<H', v)` and the corresponding
`struct.unpack` reads used by `text_packer.py`, plus Python byte-string
slicing `bs[pos:pos+len]`. -/

/-- Value of a little-endian byte string. -/
def leVal : List Nat → Nat
  | [] => 0
  | b :: bs => b + 256 * leVal bs

/-- `struct.pack('<H', v)` (Python raises for `v ≥ 2^16`; the embedding wraps,
and every theorem that reads such a field back assumes the bound). -/
def le16 (v : Nat) : List Nat := [v % 256, v / 256 % 256]

/-- `struct.pack('<I', v)` (same remark as `le16` for `v ≥ 2^32`). -/
def le32 (v : Nat) : List Nat :=
  [v % 256, v / 256 % 256, v / 65536 % 256, v / 16777216 % 256]

/-- Python slice `bs[pos : pos + len]`. -/
def byteSlice (bs : List Nat) (pos len : Nat) : List Nat := (bs.drop pos).take len

/-- Read a `<I` field at `pos` (first component of a `struct.unpack`). -/
def readLE32 (bs : List Nat) (pos : Nat) : Nat := leVal (byteSlice bs pos 4)

/-- Read a `<H` field at `pos`. -/
def readLE16 (bs : List Nat) (pos : Nat) : Nat := leVal (byteSlice bs pos 2)

/-- Total length of a list of byte strings. -/
def sumLen (l : List (List Nat)) : Nat := (l.map List.length).sum

/-! ### External runtime functions

`text_packer.py` calls `hashlib.md5` (through `deterministic_hash`),
`zlib.compress(..., level=9)`, `zlib.decompress`, `str.encode('utf-8')` and
`bytes.decode('utf-8')`.  These are not code of this repository; the
embedding takes them as parameters. -/

/-- The external library functions used by `SimplifiedTextPacker`.
`md5h` models `deterministic_hash` (the first 32 bits of an MD5 digest,
parsed as big-endian hex, hence `< 2^32`); `zcomp` / `zdecomp` model
`zlib.compress(·, level=9)` / `zlib.decompress` (`none` = `zlib.error`);
`utf8` / `utf8Dec` model `str.encode('utf-8')` / `bytes.decode('utf-8')`
(`none` = `UnicodeDecodeError`). -/
structure Ext where
  utf8 : String → List Nat
  utf8Dec : List Nat → Option String
  md5h : String → Nat
  zcomp : List Nat → List Nat
  zdecomp : List Nat → Option (List Nat)

/-! ### `SimplifiedTextPacker` data model -/

/-- Python truthiness of an optional string (`None` and `""` are falsy). -/
def truthyS : Option String → Bool
  | none => false
  | some s => !s.isEmpty

/-- One element of the `tasks_data` list taken by `pack_multiple_translations`.
The translation dictionaries are association lists in insertion order; a
missing / `None` dictionary and an empty one behave identically everywhere in
the source (only their truthiness is tested), so both are embedded as `[]`. -/
structure TaskData where
  task_id : String
  original_text : Option String
  original_translations : List (String × String)
  stt_text : Option String
  stt_translations : List (String × String)
  deriving DecidableEq

/-- `task_id.encode('utf-8')[:8].ljust(8, b'\x00')` (line 80 of
`text_packer.py`, the pack side). -/
def tidBytes8 (ext : Ext) (task_id : String) : List Nat :=
  let bs := (ext.utf8 task_id).take 8
  bs ++ List.replicate (8 - bs.length) 0

/-- `lang_bytes.ljust(6, b'\x00')` (pads to six bytes, keeps longer inputs). -/
def ljust6 (bs : List Nat) : List Nat := bs ++ List.replicate (6 - bs.length) 0

/-- The language tags a task contributes to `all_languages` (lines 46-50:
the keys of each truthy translation dictionary). -/
def taskLangs (t : TaskData) : List String :=
  (if !t.original_translations.isEmpty then t.original_translations.map Prod.fst else [])
    ++ (if !t.stt_translations.isEmpty then t.stt_translations.map Prod.fst else [])

/-- The set `all_languages` as a duplicate-free list (iteration order of a
Python set is immaterial here: the source only takes its size, truthiness and
`sorted(...)`). -/
def allLangs (tasks : List TaskData) : List String :=
  (tasks.flatMap taskLangs).dedup

/-- Lexicographic comparison of code-point sequences. -/
def leListNat : List Nat → List Nat → Bool
  | [], _ => true
  | _ :: _, [] => false
  | a :: as, b :: bs =>
    if a < b then true
    else if b < a then false
    else leListNat as bs

/-- Python string comparison: lexicographic on the sequences of code
points. -/
def pyLe (a b : String) : Prop :=
  leListNat (a.data.map Char.toNat) (b.data.map Char.toNat) = true

instance : DecidableRel pyLe := fun a b =>
  instDecidableEqBool (leListNat (a.data.map Char.toNat) (b.data.map Char.toNat)) true

/-- `sorted(...)` on strings, sorting by Python's code-point order. -/
def pySorted (l : List String) : List String := l.insertionSort pyLe

/-- A text entry before offsets are assigned: language, padded task id,
source text and numeric source type (`0 = TEXT`, `1 = AUDIO`). -/
structure PreEntry where
  lang : String
  tid : List Nat
  text : String
  srcType : Nat
  deriving DecidableEq

/-- The text entries one task contributes, in scan order (lines 83-118:
the original-text block, guarded by `if original_text and
original_translations`, then the STT block). -/
def taskPre (ext : Ext) (t : TaskData) : List PreEntry :=
  (if truthyS t.original_text && !t.original_translations.isEmpty then
    t.original_translations.map fun p => ⟨p.1, tidBytes8 ext t.task_id, p.2, 0⟩
  else [])
    ++ (if truthyS t.stt_text && !t.stt_translations.isEmpty then
      t.stt_translations.map fun p => ⟨p.1, tidBytes8 ext t.task_id, p.2, 1⟩
    else [])

/-- A text entry with its assigned offset into the text-data region. -/
structure PackEntry where
  lang : String
  tid : List Nat
  text : String
  srcType : Nat
  off : Nat
  deriving DecidableEq

/-- The compressed bytes stored for an entry:
`zlib.compress(text.encode('utf-8'), level=9)`. -/
def entryComp (ext : Ext) (e : PackEntry) : List Nat := ext.zcomp (ext.utf8 e.text)

/-- Offset assignment: `current_offset` starts at 0 and advances by the
compressed length of each text in scan order (lines 69, 93-99, 111-118). -/
def addOffsets (ext : Ext) : Nat → List PreEntry → List PackEntry
  | _, [] => []
  | off, e :: es =>
    ⟨e.lang, e.tid, e.text, e.srcType, off⟩
      :: addOffsets ext (off + (ext.zcomp (ext.utf8 e.text)).length) es

/-- All text entries of the input, in scan order, with offsets. -/
def packEntries (ext : Ext) (tasks : List TaskData) : List PackEntry :=
  addOffsets ext 0 (tasks.flatMap (taskPre ext))

/-- `lang_data[lang_code]`: the entries of one language, in scan order. -/
def entriesFor (entries : List PackEntry) (l : String) : List PackEntry :=
  entries.filter fun e => e.lang == l

/-- `lang_data.keys()` as a duplicate-free list (again only its size,
membership and `sorted(...)` matter). -/
def langKeys (entries : List PackEntry) : List String :=
  (entries.map PackEntry.lang).dedup

/-- `sorted(lang_data.keys())` (line 125). -/
def sortedKeys (entries : List PackEntry) : List String :=
  pySorted (langKeys entries)

/-- One language-table record (line 63):
`struct.pack('<H', len(lang_bytes)) + lang_bytes.ljust(6, b'\x00')`.
(`lang_offsets` is also computed there but never used afterwards.) -/
def tableRec (ext : Ext) (l : String) : List Nat :=
  le16 (ext.utf8 l).length ++ ljust6 (ext.utf8 l)

/-- One text-index record (lines 134-139):
`struct.pack('<8sIIHH', task_id_bytes, offset, length, source_type, 0)`. -/
def record20 (ext : Ext) (e : PackEntry) : List Nat :=
  e.tid ++ le32 e.off ++ le32 (entryComp ext e).length ++ le16 e.srcType ++ le16 0

/-- The language-index region (lines 125-140): one
`struct.pack('<III', lang_hash, text_index_offset, len(texts))` record per
key of `lang_data` in sorted order, where `text_index_offset` advances by
`TEXT_INDEX_ITEM_SIZE = 20` for every text record emitted so far. -/
def langIndexBytes (ext : Ext) (entries : List PackEntry) :
    List String → Nat → List Nat
  | [], _ => []
  | l :: ls, acc =>
    le32 (ext.md5h l) ++ le32 acc ++ le32 (entriesFor entries l).length
      ++ langIndexBytes ext entries ls (acc + 20 * (entriesFor entries l).length)

/-- The text-index region: the 20-byte records of each language, languages in
sorted order, entries of one language in scan order. -/
def textIndexBytes (ext : Ext) (entries : List PackEntry) (keys : List String) :
    List Nat :=
  (keys.map fun l => ((entriesFor entries l).map (record20 ext)).flatten).flatten

/-- The text-data region: the concatenated compressed texts in scan order. -/
def textDataBytes (ext : Ext) (entries : List PackEntry) : List Nat :=
  (entries.map (entryComp ext)).flatten

/-- `SimplifiedTextPacker.pack_multiple_translations`, with the iteration
order of the `all_languages` set exposed as the `order` argument (Python
set iteration order is unspecified; the source canonicalizes it with
`sorted` and otherwise takes only `len` and truthiness). -/
def pack_mt_withSetOrder (ext : Ext) (order : List String)
    (tasks : List TaskData) : List Nat :=
  if order.isEmpty then
    -- line 54: empty header, version 4, HEADER_SIZE = 16
    le32 4 ++ le32 0 ++ le32 16 ++ le32 16
  else
    let entries := packEntries ext tasks
    let keys := sortedKeys entries
    let table := ((pySorted order).map (tableRec ext)).flatten
    let lang_index_offset := 16 + table.length
    let li := langIndexBytes ext entries keys 0
    let text_index_offset := lang_index_offset + li.length
    let ti := textIndexBytes ext entries keys
    let text_data_offset := text_index_offset + ti.length
    le32 4 ++ le32 order.length ++ le32 lang_index_offset ++ le32 text_data_offset
      ++ table ++ li ++ ti ++ textDataBytes ext entries

/-- `SimplifiedTextPacker.pack_multiple_translations` (lines 27-159). -/
def pack_multiple_translations (ext : Ext) (tasks : List TaskData) : List Nat :=
  pack_mt_withSetOrder ext (allLangs tasks) tasks

/-! ### `SimplifiedTextPacker.query_text` -/

/-- `task_id.encode('utf-8')[:8].ljust(8, b'\x00')` as written a second time
on line 211 of `text_packer.py` (the query side). -/
def queryTidBytes8 (ext : Ext) (task_id : String) : List Nat :=
  let bs := (ext.utf8 task_id).take 8
  bs ++ List.replicate (8 - bs.length) 0

/-- `source_type.upper()`, modelled characterwise (this agrees with Python
`str.upper()` on ASCII strings, which is all the comparison below can
match). -/
def pyUpper (s : String) : String := String.mk (s.data.map Char.toUpper)

/-- Lines 214-221: `source_type.upper()` mapped to the numeric code, `None`
for anything else. -/
def sourceTypeCode (source_type : String) : Option Nat :=
  let u := pyUpper source_type
  if u = "TEXT" then some 0
  else if u = "AUDIO" then some 1
  else none

/-- The language-index scan (lines 197-205): for `i in range(lang_count)`,
read 12 bytes at `lang_index_offset + i * 12` when in bounds, break on the
first hash match, returning `(text_offset, count)`. -/
def scanLangIdx (blob : List Nat) (target base : Nat) : Nat → Nat → Option (Nat × Nat)
  | 0, _ => none
  | n + 1, i =>
    if base + i * 12 + 12 ≤ blob.length then
      -- struct.unpack('<III', packed_data[pos : pos + 12]) = (stored_hash,
      -- text_offset, count), then `if stored_hash == lang_hash: ...; break`
      if readLE32 blob (base + i * 12) = target then
        some (readLE32 blob (base + i * 12 + 4), readLE32 blob (base + i * 12 + 8))
      else scanLangIdx blob target base n (i + 1)
    else scanLangIdx blob target base n (i + 1)

/-- The text-index scan (lines 224-240): for `i in range(text_count)`, read a
20-byte record at `text_index_start + i * 20` when in bounds; on a task-id and
source-type match whose data slice is in bounds, decompress and decode (a
failure there is a raised exception, `.error ()`); otherwise keep scanning and
finally return `.ok none`. -/
def scanText (ext : Ext) (blob : List Nat) (tdo : Nat) (tid : List Nat)
    (code base : Nat) : Nat → Nat → Except Unit (Option String)
  | 0, _ => .ok none
  | n + 1, i =>
    if base + i * 20 + 20 ≤ blob.length then
      -- struct.unpack('<8sIIHH', packed_data[pos : pos + 20]) =
      -- (stored_task_id, data_offset, data_length, stored_source_type, _)
      if byteSlice blob (base + i * 20) 8 = tid
          ∧ readLE16 blob (base + i * 20 + 16) = code then
        if tdo + readLE32 blob (base + i * 20 + 8)
            + readLE32 blob (base + i * 20 + 12) ≤ blob.length then
          match ext.zdecomp (byteSlice blob
              (tdo + readLE32 blob (base + i * 20 + 8))
              (readLE32 blob (base + i * 20 + 12))) with
          | none => .error ()
          | some bs =>
            match ext.utf8Dec bs with
            | none => .error ()
            | some s => .ok (some s)
        else scanText ext blob tdo tid code base n (i + 1)
      else scanText ext blob tdo tid code base n (i + 1)
    else scanText ext blob tdo tid code base n (i + 1)

/-- The body of `SimplifiedTextPacker.query_text` (lines 184-240), before the
enclosing `try/except`: `.error ()` is a raised exception (in the source only
`zlib.decompress` or `bytes.decode` can raise once the header read is
guarded), `.ok none` is "not found". -/
def query_textE (ext : Ext) (blob : List Nat)
    (language task_id source_type : String) : Except Unit (Option String) :=
  if blob.length < 16 then .ok none
  else
    -- struct.unpack('<IIII', packed_data[:16]) = (version, lang_count,
    -- lang_index_offset, text_data_offset); `version` is never used.
    -- readLE32 blob 4 = lang_count, readLE32 blob 8 = lang_index_offset,
    -- readLE32 blob 12 = text_data_offset.
    match scanLangIdx blob (ext.md5h language) (readLE32 blob 8) (readLE32 blob 4) 0 with
    | none => .ok none
    | some (text_offset, text_count) =>
      match sourceTypeCode source_type with
      | none => .ok none
      | some code =>
        -- text_index_start = lang_index_offset + lang_count * 12 + text_offset
        scanText ext blob (readLE32 blob 12) (queryTidBytes8 ext task_id) code
          (readLE32 blob 8 + readLE32 blob 4 * 12 + text_offset) text_count 0

/-- `SimplifiedTextPacker.query_text` (lines 181-244): the whole body runs
under `try/except Exception: return None`, so a raised decode error is
reported as `None`. -/
def query_text (ext : Ext) (blob : List Nat)
    (language task_id source_type : String) : Option String :=
  match query_textE ext blob language task_id source_type with
  | .error _ => none
  | .ok r => r

/-! ### Derived views of the pack, used to state and prove its properties -/

/-- The pre-entry list of the whole scan (everything of `lang_data` except
the assigned offsets). -/
def packPre (ext : Ext) (tasks : List TaskData) : List PreEntry :=
  tasks.flatMap (taskPre ext)

/-- Forget the offset of a packed entry. -/
def PackEntry.toPre (e : PackEntry) : PreEntry := ⟨e.lang, e.tid, e.text, e.srcType⟩

/-- The identifying components compared by the query scan. -/
def PreEntry.key (e : PreEntry) : List Nat × String × Nat := (e.tid, e.lang, e.srcType)

/-- Sum of the per-language entry counts over a list of languages. -/
def countsSum (entries : List PackEntry) (ks : List String) : Nat :=
  (ks.map fun l => (entriesFor entries l).length).sum

/-- The abstract records of the language-index region: for each key in order,
its hash, its relative text-index offset and its entry count. -/
def langItems (ext : Ext) (entries : List PackEntry) :
    List String → Nat → List (Nat × Nat × Nat)
  | [], _ => []
  | l :: ls, acc =>
    (ext.md5h l, acc, (entriesFor entries l).length)
      :: langItems ext entries ls (acc + 20 * (entriesFor entries l).length)

/-- The 12 bytes of one language-index record. -/
def langRecBytes (it : Nat × Nat × Nat) : List Nat :=
  le32 it.1 ++ le32 it.2.1 ++ le32 it.2.2

/-- The text-index block of one language. -/
def langBlock (ext : Ext) (entries : List PackEntry) (l : String) : List Nat :=
  ((entriesFor entries l).map (record20 ext)).flatten

/-- The language table of the blob. -/
def packTable (ext : Ext) (tasks : List TaskData) : List Nat :=
  ((pySorted (allLangs tasks)).map (tableRec ext)).flatten

/-- `lang_index_offset` of the blob. -/
def packLangIdxOff (ext : Ext) (tasks : List TaskData) : Nat :=
  16 + (packTable ext tasks).length

/-- The language-index region of the blob. -/
def packLI (ext : Ext) (tasks : List TaskData) : List Nat :=
  langIndexBytes ext (packEntries ext tasks) (sortedKeys (packEntries ext tasks)) 0

/-- `text_index_offset` of the blob. -/
def packTextIdxOff (ext : Ext) (tasks : List TaskData) : Nat :=
  packLangIdxOff ext tasks + (packLI ext tasks).length

/-- The text-index region of the blob. -/
def packTI (ext : Ext) (tasks : List TaskData) : List Nat :=
  textIndexBytes ext (packEntries ext tasks) (sortedKeys (packEntries ext tasks))

/-- `text_data_offset` of the blob. -/
def packTDO (ext : Ext) (tasks : List TaskData) : Nat :=
  packTextIdxOff ext tasks + (packTI ext tasks).length

/-- The text-data region of the blob. -/
def packTD (ext : Ext) (tasks : List TaskData) : List Nat :=
  textDataBytes ext (packEntries ext tasks)

/-! ### `TranslationService` provider chain (`translation_service.py`) -/

/-- The provider API keys read by `_translate_single`.  In `config.py` they
are plain strings defaulting to `''`; only their truthiness (non-emptiness)
is tested.  The `hasattr` guards in the source are always true for this
config class. -/
structure TransConfig where
  TRANSLATION_API_KEY : String
  GOOGLE_TRANSLATE_API_KEY : String
  DEEPL_API_KEY : String
  deriving DecidableEq

/-- Outcome of one external provider HTTP/API call: the returned translation,
or a raised exception with its message. -/
inductive CallResult
  | ok (s : String)
  | fail (msg : String)
  deriving DecidableEq

/-- The outcomes the four external providers would produce for one
`(text, source_lang, target_lang)` call.  The providers are external
services; the embedding takes their responses as parameters. -/
structure ProviderNet where
  openai : CallResult
  google : CallResult
  deepl : CallResult
  libre : CallResult
  deriving DecidableEq

/-- `TranslationService._translate_with_dict` (lines 348-353): the literal
local fallback string. -/
def translate_with_dict (text source_lang target_lang : String) : String :=
  "[todo use another translator][Translated from " ++ source_lang ++ " to "
    ++ target_lang ++ "]: " ++ text

/-- `TranslationService._translate_with_libre` (lines 296-328): on any
failure of the public endpoint, its own `except` falls back to
`_translate_with_dict`; it never raises. -/
def translate_with_libre (net : ProviderNet) (text source_lang target_lang : String) :
    String :=
  match net.libre with
  | .ok s => s
  | .fail _ => translate_with_dict text source_lang target_lang

/-- `TranslationService._translate_single` (lines 103-129): OpenAI if its key
is set (its failure propagates — the outer `except` re-raises); else Google if
configured, its failure only logged; else DeepL if configured, its failure only
logged; else the LibreTranslate path with its local-dictionary fallback. -/
def translate_single (cfg : TransConfig) (net : ProviderNet)
    (text source_lang target_lang : String) : Except String String :=
  if !cfg.TRANSLATION_API_KEY.isEmpty then
    match net.openai with
    | .ok s => .ok s
    | .fail e => .error e
  else
    match (if !cfg.GOOGLE_TRANSLATE_API_KEY.isEmpty then net.google else .fail "") with
    | .ok s => .ok s
    | .fail _ =>
      match (if !cfg.DEEPL_API_KEY.isEmpty then net.deepl else .fail "") with
      | .ok s => .ok s
      | .fail _ => .ok (translate_with_libre net text source_lang target_lang)

/-! ### `NodeManager._update_node_ranking` (`node_manager.py`, lines 136-162)

Python floats are embedded as rationals; the three inputs are the sampled
`memory_percent`, `cpu_usage` and the integer `active_task_count` the method
reads from `node_info`. -/

/-- The score written into the `node_rankings` sorted set. -/
def nodeScore (memory_percent cpu_usage : ℚ) (active_task_count : ℕ) : ℚ :=
  let memory_weight : ℚ := 0.4
  let cpu_weight : ℚ := 0.3
  let task_weight : ℚ := 0.3
  let memory_score := memory_percent / 100
  let cpu_score := cpu_usage / 100
  let task_score := min ((active_task_count : ℚ) / 10) 1
  memory_weight * memory_score + cpu_weight * cpu_score + task_weight * task_score

/-! ### `DatabaseService.update_task_status` (`database_service.py`, lines 22-61) -/

/-- A value bound to a column in the UPDATE statement. -/
inductive SqlValue
  | vStr (s : String)
  | vRat (q : ℚ)
  | vNull
  | vStatus (s : String)
  | vNow
  deriving DecidableEq

/-- The `update_data` column map built by `update_task_status` (lines 29-40):
`status`, `updated_at`, `accuracy` and `text_content` are always present
(`accuracy` / `text_content` as SQL `NULL` when the argument is absent);
`result_file_path` and `error_message` are added only when their argument is
truthy. -/
def update_data (status : String) (result_path error_message : Option String)
    (accuracy : Option ℚ) (transcribed_text : Option String) :
    List (String × SqlValue) :=
  [("status", SqlValue.vStatus status),
   ("updated_at", SqlValue.vNow),
   ("accuracy", match accuracy with
     | some a => SqlValue.vRat a
     | none => SqlValue.vNull),
   ("text_content", match transcribed_text with
     | some s => SqlValue.vStr s
     | none => SqlValue.vNull)]
    ++ (match result_path with
      | some p => if p.isEmpty then [] else [("result_file_path", SqlValue.vStr p)]
      | none => [])
    ++ (match error_message with
      | some m => if m.isEmpty then [] else [("error_message", SqlValue.vStr m)]
      | none => [])

/-! ### Concrete instantiations of the external functions

Used by counterexamples and witnesses.  `asciiExt` encodes characters by
code point (it agrees with UTF-8 on the ASCII-only strings the concrete
inputs use), hashes a string to its length (injective on the concrete
language sets involved, as the real 32-bit MD5 prefix is assumed to be),
and uses the identity compression. -/

/-- A concrete `Ext` whose compress/decode round trip always succeeds. -/
def asciiExt : Ext where
  utf8 s := s.data.map Char.toNat
  utf8Dec bs := some (String.mk (bs.map Char.ofNat))
  md5h s := s.length % 4294967296
  zcomp bs := bs
  zdecomp bs := some bs

/-- A concrete `Ext` whose decompression always raises (as `zlib.decompress`
does on bytes that are not a zlib stream). -/
def corruptExt : Ext where
  utf8 s := s.data.map Char.toNat
  utf8Dec bs := some (String.mk (bs.map Char.ofNat))
  md5h s := s.length % 4294967296
  zcomp bs := bs
  zdecomp _ := none

/-! ### C2: decode failures in `query_text` -/

/-- A 49-byte blob whose single text entry matches a query for
`("en", "t", "TEXT")` and whose data byte is not a valid compressed stream:
header, one language-index record (hash of `"en"`, relative offset 0, one
entry), one 20-byte text-index record, one data byte. -/
def corruptBlob : List Nat :=
  le32 4 ++ le32 1 ++ le32 16 ++ le32 48
    ++ (le32 2 ++ le32 0 ++ le32 1)
    ++ (tidBytes8 corruptExt "t" ++ le32 0 ++ le32 1 ++ le16 0 ++ le16 0)
    ++ [99]

/-- Well-formedness of the input for the round trip: every non-empty
translation dictionary is accompanied by a truthy source text (otherwise the
blob's language index disagrees with its header, see C4). -/
def SourceTextsPresent (tasks : List TaskData) : Prop :=
  ∀ t ∈ tasks,
    (t.original_translations ≠ [] → truthyS t.original_text = true) ∧
    (t.stt_translations ≠ [] → truthyS t.stt_text = true)

/-! ### The blob as a concatenation of its regions -/

/-- Header plus language table: everything before `lang_index_offset`. -/
def packHdr (ext : Ext) (tasks : List TaskData) : List Nat :=
  le32 4 ++ le32 (allLangs tasks).length ++ le32 (packLangIdxOff ext tasks)
    ++ le32 (packTDO ext tasks) ++ packTable ext tasks

/-! ## Theorems -/

@[simp] theorem le16_length (v : Nat) : (le16 v).length = 2 := rfl

@[simp] theorem le32_length (v : Nat) : (le32 v).length = 4 := rfl

theorem leVal_le32 (v : Nat) (h : v < 4294967296) : leVal (le32 v) = v := by
  simp only [le32, leVal]
  omega

theorem leVal_le16 (v : Nat) (h : v < 65536) : leVal (le16 v) = v := by
  simp only [le16, leVal]
  omega

theorem byteSlice_append_of_le (a b : List Nat) (pos n : Nat) (h : pos + n ≤ a.length) :
    byteSlice (a ++ b) pos n = byteSlice a pos n := by
  unfold byteSlice
  rw [List.drop_append_eq_append_drop,
    List.take_append_of_le_length (by simp; omega)]

theorem byteSlice_append_shift (a b : List Nat) (pos n : Nat) :
    byteSlice (a ++ b) (a.length + pos) n = byteSlice b pos n := by
  unfold byteSlice
  rw [List.drop_append]

theorem byteSlice_sub (xs : List Nat) (pos a b n : Nat) (h : a + b ≤ n) :
    byteSlice (byteSlice xs pos n) a b = byteSlice xs (pos + a) b := by
  unfold byteSlice
  rw [List.drop_take, List.take_take, List.drop_drop]
  congr 1
  omega

theorem byteSlice_start (a rest : List Nat) :
    byteSlice (a ++ rest) 0 a.length = a := by
  unfold byteSlice
  rw [List.drop_zero, List.take_append_of_le_length (Nat.le_refl _), List.take_length]

@[simp] theorem sumLen_nil : sumLen [] = 0 := rfl

@[simp] theorem sumLen_cons (x : List Nat) (l : List (List Nat)) :
    sumLen (x :: l) = x.length + sumLen l := by
  simp [sumLen]

theorem sumLen_append (l₁ l₂ : List (List Nat)) :
    sumLen (l₁ ++ l₂) = sumLen l₁ + sumLen l₂ := by
  simp [sumLen]

@[simp] theorem length_flatten_eq_sumLen (l : List (List Nat)) :
    l.flatten.length = sumLen l := by
  simp [sumLen]

/-- Reading a fixed-size block out of a flattened list of fixed-size blocks. -/
theorem byteSlice_flatten_fixed {α : Type} (f : α → List Nat) (k : Nat)
    (l : List α) (rest : List Nat) (j : Nat) (hj : j < l.length)
    (hk : ∀ x ∈ l, (f x).length = k) :
    byteSlice ((l.map f).flatten ++ rest) (k * j) k = f (l.get ⟨j, hj⟩) := by
  induction l generalizing j rest with
  | nil => simp at hj
  | cons x xs ih =>
    cases j with
    | zero =>
      have hx : (f x).length = k := hk x (List.mem_cons_self x xs)
      simp only [List.map_cons, List.flatten_cons, List.append_assoc, Nat.mul_zero,
        List.get]
      calc byteSlice (f x ++ ((xs.map f).flatten ++ rest)) 0 k
          = byteSlice (f x ++ ((xs.map f).flatten ++ rest)) 0 (f x).length := by rw [hx]
        _ = f x := byteSlice_start _ _
    | succ j =>
      have hx : (f x).length = k := hk x (List.mem_cons_self x xs)
      have hkj : k * (j + 1) = (f x).length + k * j := by rw [hx]; ring
      simp only [List.map_cons, List.flatten_cons, List.append_assoc, List.get]
      rw [hkj, byteSlice_append_shift]
      exact ih rest j (by simpa using hj) (fun y hy => hk y (List.mem_cons_of_mem x hy))

/-- Reading the `j`-th block out of a flattened list of variable-size blocks. -/
theorem byteSlice_flatten_at (parts : List (List Nat)) (rest : List Nat)
    (j : Nat) (hj : j < parts.length) :
    byteSlice (parts.flatten ++ rest) (sumLen (parts.take j))
      (parts.get ⟨j, hj⟩).length = parts.get ⟨j, hj⟩ := by
  induction parts generalizing j rest with
  | nil => simp at hj
  | cons p ps ih =>
    cases j with
    | zero =>
      simp only [List.take_zero, sumLen_nil, List.flatten_cons, List.append_assoc,
        List.get]
      exact byteSlice_start _ _
    | succ j =>
      simp only [List.take_succ_cons, sumLen_cons, List.flatten_cons, List.append_assoc,
        List.get]
      rw [byteSlice_append_shift]
      exact ih rest j (by simpa using hj)

@[simp] theorem tidBytes8_length (ext : Ext) (s : String) :
    (tidBytes8 ext s).length = 8 := by
  simp only [tidBytes8, List.length_append, List.length_take, List.length_replicate]
  omega

/-! ### C5: packing with no translations -/

/-- C5: packing an empty task list, or a list whose tasks carry no
translations at all, yields exactly the 16 little-endian header bytes
`version=4, langCount=0, langIndexOffset=16, textDataOffset=16`. -/
theorem pack_empty_is_header (ext : Ext) (tasks : List TaskData)
    (h : ∀ t ∈ tasks, t.original_translations = [] ∧ t.stt_translations = []) :
    pack_multiple_translations ext tasks = le32 4 ++ le32 0 ++ le32 16 ++ le32 16 ∧
      (pack_multiple_translations ext tasks).length = 16 := by
  have hfl : tasks.flatMap taskLangs = [] := by
    induction tasks with
    | nil => rfl
    | cons t ts ih =>
      have ht := h t (List.mem_cons_self t ts)
      have hts := ih fun u hu => h u (List.mem_cons_of_mem t hu)
      simp [taskLangs, ht.1, ht.2, hts]
  have hl : allLangs tasks = [] := by simp [allLangs, hfl]
  constructor
  · simp [pack_multiple_translations, pack_mt_withSetOrder, hl]
  · simp [pack_multiple_translations, pack_mt_withSetOrder, hl]

/-- Witness for C5 at a concrete task that carries no translations
(the shape of the `empty` boundary test in the source's `__main__`). -/
theorem pack_empty_is_header_witness :
    (∀ t ∈ [(⟨"empty", none, [], none, []⟩ : TaskData)],
        t.original_translations = [] ∧ t.stt_translations = []) ∧
      pack_multiple_translations asciiExt [⟨"empty", none, [], none, []⟩]
          = le32 4 ++ le32 0 ++ le32 16 ++ le32 16 ∧
      (pack_multiple_translations asciiExt [⟨"empty", none, [], none, []⟩]).length = 16 :=
  ⟨by decide, pack_empty_is_header asciiExt [⟨"empty", none, [], none, []⟩] (by decide)⟩

/-- C2 counterexample: on a blob whose matched entry fails decompression, the
body of `query_text` raises (`.error ()`), but `query_text` itself catches the
exception and returns `None` — the same result as "not found" — rather than
propagating a decode error to the caller. -/
theorem query_decode_error_swallowed_counterexample :
    query_textE corruptExt corruptBlob "en" "t" "TEXT" = .error () ∧
      query_text corruptExt corruptBlob "en" "t" "TEXT" = none := by
  constructor
  · rfl
  · rfl

/-- C2 amended: a decompression or UTF-8 decode failure inside `query_text`
is caught by its enclosing `try/except` and reported as `None`,
indistinguishable from "not found"; no decode error reaches the caller. -/
theorem query_text_swallows_decode_error (ext : Ext) (blob : List Nat)
    (language task_id source_type : String)
    (h : query_textE ext blob language task_id source_type = .error ()) :
    query_text ext blob language task_id source_type = none := by
  simp [query_text, h]

/-- Witness for the amended C2 at the corrupt blob. -/
theorem query_text_swallows_decode_error_witness :
    query_textE corruptExt corruptBlob "en" "t" "TEXT" = .error () ∧
      query_text corruptExt corruptBlob "en" "t" "TEXT" = none :=
  ⟨rfl,
    query_text_swallows_decode_error corruptExt corruptBlob "en" "t" "TEXT" rfl⟩

/-! ### C10: totality of `query_text` -/

/-- C10: `query_text` is total at the public interface: on every byte string
and every language / task id / source type it returns either a decoded string
or `None`; every raised exception of its body is caught and mapped to `None`
(in particular decode errors), and an unknown source type yields `None`. -/
theorem query_text_never_raises (ext : Ext) (blob : List Nat)
    (language task_id source_type : String) :
    (query_text ext blob language task_id source_type = none ∨
      ∃ s, query_text ext blob language task_id source_type = some s) ∧
    (∀ r, query_textE ext blob language task_id source_type = .ok r →
      query_text ext blob language task_id source_type = r) ∧
    (∀ e, query_textE ext blob language task_id source_type = .error e →
      query_text ext blob language task_id source_type = none) ∧
    (sourceTypeCode source_type = none →
      query_text ext blob language task_id source_type = none) := by
  refine ⟨?_, ?_, ?_, ?_⟩
  · cases h : query_text ext blob language task_id source_type with
    | none => exact Or.inl rfl
    | some s => exact Or.inr ⟨s, rfl⟩
  · intro r h; simp [query_text, h]
  · intro e h; simp [query_text, h]
  · intro h
    unfold query_text query_textE
    by_cases hlen : blob.length < 16
    · simp [hlen]
    · rcases hscan : scanLangIdx blob (ext.md5h language) (readLE32 blob 8)
          (readLE32 blob 4) 0 with _ | ⟨toff, cnt⟩ <;>
        simp [hlen, hscan, h]

/-- Witness for C10: a truncated garbage blob and a bogus source type. -/
theorem query_text_never_raises_witness :
    sourceTypeCode "BOGUS" = none ∧
      query_text asciiExt [1, 2, 3] "en" "t" "BOGUS" = none :=
  ⟨rfl, (query_text_never_raises asciiExt [1, 2, 3] "en" "t" "BOGUS").2.2.2 rfl⟩

/-! ### C3: the literal translation fallback -/

/-- C3 counterexample: with no provider API keys configured and the public
endpoint failing, the returned translation is not the spec's
`"[Translated from {src} to {tgt}]: {text}"` — the source prefixes it with
`"[todo use another translator]"`. -/
theorem translate_fallback_counterexample :
    translate_single ⟨"", "", ""⟩ ⟨.fail "e", .fail "e", .fail "e", .fail "down"⟩
        "hi" "en" "fr" = .ok (translate_with_dict "hi" "en" "fr") ∧
      translate_single ⟨"", "", ""⟩ ⟨.fail "e", .fail "e", .fail "e", .fail "down"⟩
        "hi" "en" "fr" ≠ .ok "[Translated from en to fr]: hi" := by
  refine ⟨rfl, ?_⟩
  intro hc
  have h : translate_with_dict "hi" "en" "fr" = "[Translated from en to fr]: hi" :=
    Except.ok.inj ((rfl :
      translate_single ⟨"", "", ""⟩ ⟨.fail "e", .fail "e", .fail "e", .fail "down"⟩
        "hi" "en" "fr" = .ok (translate_with_dict "hi" "en" "fr")).symm.trans hc)
  exact absurd h (by decide)

/-- C3 amended: when no provider API key is configured and the public
LibreTranslate endpoint fails, the translation returned for a target language
is exactly
`"[todo use another translator][Translated from {src} to {tgt}]: {text}"`. -/
theorem translate_fallback_literal (cfg : TransConfig) (net : ProviderNet)
    (text src tgt : String)
    (h1 : cfg.TRANSLATION_API_KEY.isEmpty = true)
    (h2 : cfg.GOOGLE_TRANSLATE_API_KEY.isEmpty = true)
    (h3 : cfg.DEEPL_API_KEY.isEmpty = true)
    (e : String) (hl : net.libre = .fail e) :
    translate_single cfg net text src tgt
      = .ok ("[todo use another translator][Translated from " ++ src ++ " to "
          ++ tgt ++ "]: " ++ text) := by
  simp [translate_single, h1, h2, h3, translate_with_libre, hl, translate_with_dict]

/-- Witness for the amended C3. -/
theorem translate_fallback_literal_witness :
    ("" : String).isEmpty = true ∧
      translate_single ⟨"", "", ""⟩ ⟨.fail "e", .fail "e", .fail "e", .fail "down"⟩
          "hello" "en" "zh-cn"
        = .ok ("[todo use another translator][Translated from " ++ "en" ++ " to "
            ++ "zh-cn" ++ "]: " ++ "hello") :=
  ⟨rfl,
    translate_fallback_literal ⟨"", "", ""⟩ ⟨.fail "e", .fail "e", .fail "e", .fail "down"⟩
      "hello" "en" "zh-cn" rfl rfl rfl "down" rfl⟩

/-! ### C8: the node ranking score -/

/-- C8: the published node score equals
`0.4 * memoryPercent/100 + 0.3 * cpuUsage/100 + 0.3 * min(activeTaskCount/10, 1)`,
and it is monotone (never decreases) in each of `activeTaskCount`,
`memoryPercent` and `cpuUsage` separately. -/
theorem nodeScore_formula_and_monotone :
    (∀ (mp cu : ℚ) (atc : ℕ),
        nodeScore mp cu atc
          = 0.4 * (mp / 100) + 0.3 * (cu / 100) + 0.3 * min ((atc : ℚ) / 10) 1) ∧
    (∀ (mp cu : ℚ) (a₁ a₂ : ℕ), a₁ ≤ a₂ → nodeScore mp cu a₁ ≤ nodeScore mp cu a₂) ∧
    (∀ (mp₁ mp₂ cu : ℚ) (atc : ℕ), mp₁ ≤ mp₂ →
        nodeScore mp₁ cu atc ≤ nodeScore mp₂ cu atc) ∧
    (∀ (mp cu₁ cu₂ : ℚ) (atc : ℕ), cu₁ ≤ cu₂ →
        nodeScore mp cu₁ atc ≤ nodeScore mp cu₂ atc) := by
  refine ⟨fun mp cu atc => rfl, ?_, ?_, ?_⟩
  · intro mp cu a₁ a₂ h
    have hc : (a₁ : ℚ) ≤ (a₂ : ℚ) := by exact_mod_cast h
    simp only [nodeScore]
    gcongr
  · intro mp₁ mp₂ cu atc h
    simp only [nodeScore]
    gcongr
  · intro mp cu₁ cu₂ atc h
    simp only [nodeScore]
    gcongr

/-- Witness for C8 at concrete resource samples. -/
theorem nodeScore_witness :
    (5 : ℕ) ≤ 7 ∧ nodeScore 50 20 5 ≤ nodeScore 50 20 7 :=
  ⟨by decide, nodeScore_formula_and_monotone.2.1 50 20 5 7 (by decide)⟩

/-! ### C9: columns written by `update_task_status` -/

/-- C9: the UPDATE built by `update_task_status` always binds the `accuracy`
and `text_content` columns with the given argument values (SQL `NULL` when the
argument is absent), while `result_file_path` and `error_message` are bound
only when their arguments are provided (and then with the provided value). -/
theorem update_task_status_columns (status : String)
    (result_path error_message : Option String) (accuracy : Option ℚ)
    (transcribed_text : Option String) :
    (("accuracy", match accuracy with
        | some a => SqlValue.vRat a
        | none => SqlValue.vNull)
      ∈ update_data status result_path error_message accuracy transcribed_text) ∧
    (("text_content", match transcribed_text with
        | some s => SqlValue.vStr s
        | none => SqlValue.vNull)
      ∈ update_data status result_path error_message accuracy transcribed_text) ∧
    (∀ v, ("result_file_path", v)
        ∈ update_data status result_path error_message accuracy transcribed_text →
      ∃ p, result_path = some p ∧ v = SqlValue.vStr p) ∧
    (∀ v, ("error_message", v)
        ∈ update_data status result_path error_message accuracy transcribed_text →
      ∃ m, error_message = some m ∧ v = SqlValue.vStr m) := by
  refine ⟨?_, ?_, ?_, ?_⟩
  · simp [update_data]
  · simp [update_data]
  · intro v hv
    simp only [update_data, List.mem_append, List.mem_cons,
      List.not_mem_nil, or_false] at hv
    rcases hv with ((h | h | h | h) | h) | h
    · simp at h
    · simp at h
    · simp at h
    · simp at h
    · cases result_path with
      | none => simp at h
      | some p =>
        by_cases hp : p.isEmpty
        · simp [hp] at h
        · simp only [hp, if_false, Bool.false_eq_true, List.mem_singleton,
            Prod.mk.injEq, true_and] at h
          exact ⟨p, rfl, h⟩
    · cases error_message with
      | none => simp at h
      | some m =>
        by_cases hm : m.isEmpty
        · simp [hm] at h
        · simp [hm] at h
  · intro v hv
    simp only [update_data, List.mem_append, List.mem_cons,
      List.not_mem_nil, or_false] at hv
    rcases hv with ((h | h | h | h) | h) | h
    · simp at h
    · simp at h
    · simp at h
    · simp at h
    · cases result_path with
      | none => simp at h
      | some p =>
        by_cases hp : p.isEmpty
        · simp [hp] at h
        · simp [hp] at h
    · cases error_message with
      | none => simp at h
      | some m =>
        by_cases hm : m.isEmpty
        · simp [hm] at h
        · simp only [hm, if_false, Bool.false_eq_true, List.mem_singleton,
            Prod.mk.injEq, true_and] at h
          exact ⟨m, rfl, h⟩

/-! ### C4: the language-index region versus `langCount`

The header writes `langCount = len(all_languages)` (every language appearing
in any truthy translation dictionary), but the language-index region is built
only from `lang_data`, which skips dictionaries whose source text is falsy.
On such inputs the blob disagrees with its own reader. -/

/-- C4 failing input, evaluated: for the single task
`{task_id: "t", original_translations: {"en": "x"}, original_text: None}`,
the header declares `langCount = 1` (so the spec's language-index region
should be `1 × 12` bytes), but the emitted language-index region is empty and
the whole blob is just the 16-byte header plus the 8-byte language table. -/
theorem langIndex_underfull_on_missing_source_text :
    (allLangs [⟨"t", none, [("en", "x")], none, []⟩]).length = 1 ∧
      langIndexBytes asciiExt (packEntries asciiExt [⟨"t", none, [("en", "x")], none, []⟩])
        (sortedKeys (packEntries asciiExt [⟨"t", none, [("en", "x")], none, []⟩])) 0 = [] ∧
      pack_multiple_translations asciiExt [⟨"t", none, [("en", "x")], none, []⟩]
        = le32 4 ++ le32 1 ++ le32 24 ++ le32 24 ++ tableRec asciiExt "en" ∧
      (pack_multiple_translations asciiExt [⟨"t", none, [("en", "x")], none, []⟩]).length
        = 24 := by
  refine ⟨rfl, rfl, rfl, rfl⟩

/-! ### C7: determinism of `pack_multiple_translations`

In the source the only run-to-run nondeterminism candidates are the iteration
order of the `all_languages` set (Python set order is unspecified) and the
hash (`deterministic_hash` is an MD5 prefix, not the seeded builtin `hash`).
The embedding fixes the hash via `Ext` and exposes the set order as an
argument; `pack` canonicalizes it with `sorted`, `len` and truthiness, so any
two enumeration orders of the same language set produce byte-identical
blobs. -/

theorem leListNat_total (as bs : List Nat) :
    leListNat as bs = true ∨ leListNat bs as = true := by
  induction as generalizing bs with
  | nil => exact Or.inl rfl
  | cons a as ih =>
    cases bs with
    | nil => exact Or.inr rfl
    | cons b bs =>
      simp only [leListNat]
      rcases Nat.lt_trichotomy a b with h | h | h
      · left
        rw [if_pos h]
      · subst h
        rcases ih bs with h2 | h2
        · left
          rw [if_neg (Nat.lt_irrefl a), if_neg (Nat.lt_irrefl a)]
          exact h2
        · right
          rw [if_neg (Nat.lt_irrefl a), if_neg (Nat.lt_irrefl a)]
          exact h2
      · right
        rw [if_pos h]

theorem leListNat_trans (as bs cs : List Nat) (h1 : leListNat as bs = true)
    (h2 : leListNat bs cs = true) : leListNat as cs = true := by
  induction as generalizing bs cs with
  | nil => rfl
  | cons a as ih =>
    cases bs with
    | nil => simp [leListNat] at h1
    | cons b bs =>
      cases cs with
      | nil => simp [leListNat] at h2
      | cons c cs =>
        simp only [leListNat] at h1 h2 ⊢
        split_ifs at h1 h2 ⊢ with hab hba hbc hcb hac hca
        all_goals first
          | rfl
          | omega
          | (exact ih bs cs h1 h2)
          | (exact absurd h1 (by simp))
          | (exact absurd h2 (by simp))

theorem leListNat_antisymm (as bs : List Nat) (h1 : leListNat as bs = true)
    (h2 : leListNat bs as = true) : as = bs := by
  induction as generalizing bs with
  | nil =>
    cases bs with
    | nil => rfl
    | cons b bs => simp [leListNat] at h2
  | cons a as ih =>
    cases bs with
    | nil => simp [leListNat] at h1
    | cons b bs =>
      simp only [leListNat] at h1 h2
      by_cases hab : a < b
      · rw [if_neg (by omega : ¬b < a), if_pos hab] at h2
        exact absurd h2 (by simp)
      · by_cases hba : b < a
        · rw [if_neg hab, if_pos hba] at h1
          exact absurd h1 (by simp)
        · rw [if_neg hab, if_neg hba] at h1
          rw [if_neg hba, if_neg hab] at h2
          have hab2 : a = b := by omega
          rw [hab2, ih bs h1 h2]

/-- `sorted(...)` depends only on the multiset of elements. -/
theorem pySorted_perm_eq {o₁ o₂ : List String} (h : o₁.Perm o₂) :
    pySorted o₁ = pySorted o₂ := by
  haveI : IsTotal String pyLe := ⟨fun a b => leListNat_total _ _⟩
  haveI : IsTrans String pyLe := ⟨fun a b c => leListNat_trans _ _ _⟩
  haveI : IsAntisymm String pyLe := by
    refine ⟨fun a b h1 h2 => ?_⟩
    have hln := leListNat_antisymm _ _ h1 h2
    have hinj : Function.Injective Char.toNat := fun c₁ c₂ hc => by
      rw [← Char.ofNat_toNat c₁, ← Char.ofNat_toNat c₂, hc]
    have hdata : a.data = b.data := List.map_injective_iff.mpr hinj hln
    cases a
    cases b
    exact congrArg String.mk hdata
  exact List.eq_of_perm_of_sorted
    ((List.perm_insertionSort _ o₁).trans (h.trans (List.perm_insertionSort _ o₂).symm))
    (List.sorted_insertionSort _ o₁) (List.sorted_insertionSort _ o₂)

/-- C7: packing is deterministic — the blob does not depend on the iteration
order of the `all_languages` set, so two runs on the same input list produce
byte-identical output. -/
theorem pack_deterministic (ext : Ext) (tasks : List TaskData) (o₁ o₂ : List String)
    (h₁ : o₁.Perm (allLangs tasks)) (h₂ : o₂.Perm (allLangs tasks)) :
    pack_mt_withSetOrder ext o₁ tasks = pack_mt_withSetOrder ext o₂ tasks := by
  have hp : o₁.Perm o₂ := h₁.trans h₂.symm
  have hlen : o₁.length = o₂.length := hp.length_eq
  have hsort : pySorted o₁ = pySorted o₂ := pySorted_perm_eq hp
  have hemp : o₁.isEmpty = o₂.isEmpty := by
    cases o₁ with
    | nil =>
      cases o₂ with
      | nil => rfl
      | cons b bs => simp at hlen
    | cons a as =>
      cases o₂ with
      | nil => simp at hlen
      | cons b bs => rfl
  unfold pack_mt_withSetOrder
  rw [hemp, hlen, hsort]

/-- Witness for C7: two enumeration orders of a two-language set. -/
theorem pack_deterministic_witness :
    (["a", "bb"].Perm (allLangs [⟨"t1", some "x", [("a", "A"), ("bb", "B")], none, []⟩])) ∧
      pack_mt_withSetOrder asciiExt ["a", "bb"]
          [⟨"t1", some "x", [("a", "A"), ("bb", "B")], none, []⟩]
        = pack_mt_withSetOrder asciiExt ["bb", "a"]
          [⟨"t1", some "x", [("a", "A"), ("bb", "B")], none, []⟩] :=
  ⟨by decide,
    pack_deterministic asciiExt [⟨"t1", some "x", [("a", "A"), ("bb", "B")], none, []⟩]
      ["a", "bb"] ["bb", "a"] (by decide) (by decide)⟩

/-- Witness for C9: a `COMPLETED` write with a result path and no accuracy. -/
theorem update_task_status_columns_witness :
    (("accuracy", SqlValue.vNull)
        ∈ update_data "COMPLETED" (some "/r.bin") none none none) ∧
      ∃ p, (some "/r.bin" : Option String) = some p
        ∧ SqlValue.vStr "/r.bin" = SqlValue.vStr p :=
  ⟨(update_task_status_columns "COMPLETED" (some "/r.bin") none none none).1,
    (update_task_status_columns "COMPLETED" (some "/r.bin") none none none).2.2.1
      (SqlValue.vStr "/r.bin") (by decide)⟩

/-! ### Structural lemmas about the packed entries -/

theorem addOffsets_map_toPre (ext : Ext) (acc : Nat) (pre : List PreEntry) :
    (addOffsets ext acc pre).map PackEntry.toPre = pre := by
  induction pre generalizing acc with
  | nil => rfl
  | cons p ps ih => simp [addOffsets, PackEntry.toPre, ih]

theorem mem_addOffsets_toPre (ext : Ext) (acc : Nat) (pre : List PreEntry)
    (e : PackEntry) (he : e ∈ addOffsets ext acc pre) : e.toPre ∈ pre := by
  rw [← addOffsets_map_toPre ext acc pre]
  exact List.mem_map_of_mem PackEntry.toPre he

theorem mem_addOffsets_of_mem (ext : Ext) (acc : Nat) (pre : List PreEntry)
    (p : PreEntry) (hp : p ∈ pre) :
    ∃ e ∈ addOffsets ext acc pre, e.toPre = p := by
  have : p ∈ (addOffsets ext acc pre).map PackEntry.toPre := by
    rw [addOffsets_map_toPre]; exact hp
  exact List.mem_map.mp this

theorem entryComp_toPre (ext : Ext) (e : PackEntry) :
    entryComp ext e = ext.zcomp (ext.utf8 e.toPre.text) := rfl

theorem addOffsets_map_comp (ext : Ext) (acc : Nat) (pre : List PreEntry) :
    (addOffsets ext acc pre).map (entryComp ext)
      = pre.map fun p => ext.zcomp (ext.utf8 p.text) := by
  induction pre generalizing acc with
  | nil => rfl
  | cons p ps ih => simp [addOffsets, entryComp, ih]

/-- Offsets assigned by `addOffsets` are consistent with the concatenated
compressed data: every entry's compressed bytes sit exactly at its offset,
and every entry ends inside the region. -/
theorem addOffsets_data (ext : Ext) (pre : List PreEntry) (acc : Nat)
    (e : PackEntry) (he : e ∈ addOffsets ext acc pre) :
    acc ≤ e.off ∧
      e.off + (entryComp ext e).length
        ≤ acc + sumLen (pre.map fun p => ext.zcomp (ext.utf8 p.text)) ∧
      byteSlice ((addOffsets ext acc pre).map (entryComp ext)).flatten
        (e.off - acc) (entryComp ext e).length = entryComp ext e := by
  induction pre generalizing acc with
  | nil => simp [addOffsets] at he
  | cons p ps ih =>
    simp only [addOffsets, List.mem_cons] at he
    rcases he with he | he
    · subst he
      refine ⟨Nat.le_refl _, ?_, ?_⟩
      · simp only [entryComp, sumLen_cons, List.map_cons]
        omega
      · simp only [Nat.sub_self, List.map_cons, List.flatten_cons]
        have : (entryComp ext (⟨p.lang, p.tid, p.text, p.srcType, acc⟩ : PackEntry))
            = ext.zcomp (ext.utf8 p.text) := rfl
        rw [this]
        have hs := byteSlice_start (ext.zcomp (ext.utf8 p.text))
          ((addOffsets ext (acc + (ext.zcomp (ext.utf8 p.text)).length) ps).map
            (entryComp ext)).flatten
        exact hs
    · have hih := ih (acc + (ext.zcomp (ext.utf8 p.text)).length) he
      refine ⟨by omega, ?_, ?_⟩
      · have hsum : sumLen ((p :: ps).map fun q => ext.zcomp (ext.utf8 q.text))
            = (ext.zcomp (ext.utf8 p.text)).length
              + sumLen (ps.map fun q => ext.zcomp (ext.utf8 q.text)) := by
          simp
        omega
      · show byteSlice
            ((entryComp ext (⟨p.lang, p.tid, p.text, p.srcType, acc⟩ : PackEntry))
              :: (addOffsets ext (acc + (ext.zcomp (ext.utf8 p.text)).length) ps).map
                (entryComp ext)).flatten
            (e.off - acc) (entryComp ext e).length = entryComp ext e
        have hoff : e.off - acc
            = (entryComp ext (⟨p.lang, p.tid, p.text, p.srcType, acc⟩ : PackEntry)).length
              + (e.off - (acc + (ext.zcomp (ext.utf8 p.text)).length)) := by
          have : (entryComp ext (⟨p.lang, p.tid, p.text, p.srcType, acc⟩ : PackEntry))
              = ext.zcomp (ext.utf8 p.text) := rfl
          rw [this]
          omega
        calc byteSlice
              ((entryComp ext (⟨p.lang, p.tid, p.text, p.srcType, acc⟩ : PackEntry))
                :: (addOffsets ext (acc + (ext.zcomp (ext.utf8 p.text)).length) ps).map
                  (entryComp ext)).flatten
              (e.off - acc) (entryComp ext e).length
            = byteSlice
              ((entryComp ext (⟨p.lang, p.tid, p.text, p.srcType, acc⟩ : PackEntry))
                ++ ((addOffsets ext (acc + (ext.zcomp (ext.utf8 p.text)).length) ps).map
                  (entryComp ext)).flatten)
              ((entryComp ext (⟨p.lang, p.tid, p.text, p.srcType, acc⟩ : PackEntry)).length
                + (e.off - (acc + (ext.zcomp (ext.utf8 p.text)).length)))
              (entryComp ext e).length := by
              rw [List.flatten_cons, hoff]
          _ = _ := by
              rw [byteSlice_append_shift]
              exact hih.2.2

/-! ### Structural lemmas about `taskPre` -/

theorem mem_taskPre_tid (ext : Ext) (t : TaskData) (e : PreEntry)
    (he : e ∈ taskPre ext t) : e.tid = tidBytes8 ext t.task_id := by
  simp only [taskPre, List.mem_append] at he
  rcases he with he | he
  · by_cases hc : (truthyS t.original_text && !t.original_translations.isEmpty) = true
    · rw [if_pos hc] at he
      rcases List.mem_map.mp he with ⟨p, _, hpe⟩
      rw [← hpe]
    · rw [if_neg hc] at he
      simp at he
  · by_cases hc : (truthyS t.stt_text && !t.stt_translations.isEmpty) = true
    · rw [if_pos hc] at he
      rcases List.mem_map.mp he with ⟨p, _, hpe⟩
      rw [← hpe]
    · rw [if_neg hc] at he
      simp at he

theorem mem_taskPre_srcType (ext : Ext) (t : TaskData) (e : PreEntry)
    (he : e ∈ taskPre ext t) : e.srcType = 0 ∨ e.srcType = 1 := by
  simp only [taskPre, List.mem_append] at he
  rcases he with he | he
  · by_cases hc : (truthyS t.original_text && !t.original_translations.isEmpty) = true
    · rw [if_pos hc] at he
      rcases List.mem_map.mp he with ⟨p, _, hpe⟩
      exact Or.inl (by rw [← hpe])
    · rw [if_neg hc] at he
      simp at he
  · by_cases hc : (truthyS t.stt_text && !t.stt_translations.isEmpty) = true
    · rw [if_pos hc] at he
      rcases List.mem_map.mp he with ⟨p, _, hpe⟩
      exact Or.inr (by rw [← hpe])
    · rw [if_neg hc] at he
      simp at he

theorem mem_taskPre_lang (ext : Ext) (t : TaskData) (e : PreEntry)
    (he : e ∈ taskPre ext t) : e.lang ∈ taskLangs t := by
  simp only [taskPre, List.mem_append] at he
  simp only [taskLangs, List.mem_append]
  rcases he with he | he
  · left
    by_cases hc : (truthyS t.original_text && !t.original_translations.isEmpty) = true
    · rw [if_pos hc] at he
      rcases List.mem_map.mp he with ⟨p, hp, hpe⟩
      rw [if_pos (Bool.and_eq_true_iff.mp hc).2]
      exact List.mem_map.mpr ⟨p, hp, by rw [← hpe]⟩
    · rw [if_neg hc] at he
      simp at he
  · right
    by_cases hc : (truthyS t.stt_text && !t.stt_translations.isEmpty) = true
    · rw [if_pos hc] at he
      rcases List.mem_map.mp he with ⟨p, hp, hpe⟩
      rw [if_pos (Bool.and_eq_true_iff.mp hc).2]
      exact List.mem_map.mpr ⟨p, hp, by rw [← hpe]⟩
    · rw [if_neg hc] at he
      simp at he

/-! ### Uniqueness of `(task id bytes, language, source type)` among entries -/

theorem taskPre_key_nodup (ext : Ext) (t : TaskData)
    (h1 : (t.original_translations.map Prod.fst).Nodup)
    (h2 : (t.stt_translations.map Prod.fst).Nodup) :
    ((taskPre ext t).map PreEntry.key).Nodup := by
  have hinj0 : Function.Injective
      (fun l => (tidBytes8 ext t.task_id, l, 0) : String → List Nat × String × Nat) := by
    intro a b hab
    have := congrArg (fun q : List Nat × String × Nat => q.2.1) hab
    exact this
  have hinj1 : Function.Injective
      (fun l => (tidBytes8 ext t.task_id, l, 1) : String → List Nat × String × Nat) := by
    intro a b hab
    have := congrArg (fun q : List Nat × String × Nat => q.2.1) hab
    exact this
  unfold taskPre
  rw [List.map_append, List.nodup_append]
  refine ⟨?_, ?_, ?_⟩
  · split
    · rw [List.map_map]
      have : (PreEntry.key ∘ fun p : String × String =>
            (⟨p.1, tidBytes8 ext t.task_id, p.2, 0⟩ : PreEntry))
          = (fun l => (tidBytes8 ext t.task_id, l, 0)) ∘ Prod.fst := rfl
      rw [this, ← List.map_map]
      exact h1.map hinj0
    · exact List.nodup_nil
  · split
    · rw [List.map_map]
      have : (PreEntry.key ∘ fun p : String × String =>
            (⟨p.1, tidBytes8 ext t.task_id, p.2, 1⟩ : PreEntry))
          = (fun l => (tidBytes8 ext t.task_id, l, 1)) ∘ Prod.fst := rfl
      rw [this, ← List.map_map]
      exact h2.map hinj1
    · exact List.nodup_nil
  · intro k hk0 hk1
    have h0 : k.2.2 = 0 := by
      rcases List.mem_map.mp hk0 with ⟨e, heA, hek⟩
      have hst : e.srcType = 0 := by
        revert heA
        split
        · intro heA
          rcases List.mem_map.mp heA with ⟨p, _, hpe⟩
          rw [← hpe]
        · intro heA
          simp at heA
      rw [← hek]
      exact hst
    have h1' : k.2.2 = 1 := by
      rcases List.mem_map.mp hk1 with ⟨e, heB, hek⟩
      have hst : e.srcType = 1 := by
        revert heB
        split
        · intro heB
          rcases List.mem_map.mp heB with ⟨p, _, hpe⟩
          rw [← hpe]
        · intro heB
          simp at heB
      rw [← hek]
      exact hst
    rw [h0] at h1'
    exact absurd h1' (by decide)

theorem packPre_key_nodup (ext : Ext) (tasks : List TaskData)
    (hids : (tasks.map fun t => tidBytes8 ext t.task_id).Nodup)
    (hkeys : ∀ t ∈ tasks, (t.original_translations.map Prod.fst).Nodup
      ∧ (t.stt_translations.map Prod.fst).Nodup) :
    ((packPre ext tasks).map PreEntry.key).Nodup := by
  induction tasks with
  | nil => exact List.nodup_nil
  | cons t ts ih =>
    have hids' := hids
    rw [List.map_cons, List.nodup_cons] at hids'
    have hkt := hkeys t (List.mem_cons_self t ts)
    unfold packPre
    rw [List.flatMap_cons, List.map_append, List.nodup_append]
    refine ⟨taskPre_key_nodup ext t hkt.1 hkt.2,
      ih hids'.2 (fun u hu => hkeys u (List.mem_cons_of_mem t hu)), ?_⟩
    intro k hk1 hk2
    rcases List.mem_map.mp hk1 with ⟨e1, he1, hke1⟩
    rcases List.mem_map.mp hk2 with ⟨e2, he2, hke2⟩
    rcases List.mem_flatMap.mp he2 with ⟨u, hu, heu⟩
    have ht1 : e1.tid = tidBytes8 ext t.task_id := mem_taskPre_tid ext t e1 he1
    have ht2 : e2.tid = tidBytes8 ext u.task_id := mem_taskPre_tid ext u e2 heu
    have htid : tidBytes8 ext t.task_id = tidBytes8 ext u.task_id := by
      have hkk : e1.key = e2.key := hke1.trans hke2.symm
      have := congrArg (fun q : List Nat × String × Nat => q.1) hkk
      simpa [PreEntry.key, ht1, ht2] using this
    exact hids'.1 (htid ▸ List.mem_map_of_mem (fun t => tidBytes8 ext t.task_id) hu)

/-- Two entries of the scan with the same key are the same entry. -/
theorem packPre_key_injOn (ext : Ext) (tasks : List TaskData)
    (hids : (tasks.map fun t => tidBytes8 ext t.task_id).Nodup)
    (hkeys : ∀ t ∈ tasks, (t.original_translations.map Prod.fst).Nodup
      ∧ (t.stt_translations.map Prod.fst).Nodup)
    (e₁ e₂ : PreEntry) (h₁ : e₁ ∈ packPre ext tasks) (h₂ : e₂ ∈ packPre ext tasks)
    (hk : e₁.key = e₂.key) : e₁ = e₂ :=
  List.inj_on_of_nodup_map (packPre_key_nodup ext tasks hids hkeys) h₁ h₂ hk

/-! ### Membership of the queried entry -/

theorem orig_mem_taskPre (ext : Ext) (t : TaskData)
    (htr : truthyS t.original_text = true) (l x : String)
    (hlx : (l, x) ∈ t.original_translations) :
    (⟨l, tidBytes8 ext t.task_id, x, 0⟩ : PreEntry) ∈ taskPre ext t := by
  have hne : t.original_translations.isEmpty = false :=
    List.isEmpty_eq_false.mpr (List.ne_nil_of_mem hlx)
  simp only [taskPre, List.mem_append]
  left
  rw [if_pos (by rw [htr, hne]; rfl)]
  exact List.mem_map.mpr ⟨(l, x), hlx, rfl⟩

theorem stt_mem_taskPre (ext : Ext) (t : TaskData)
    (htr : truthyS t.stt_text = true) (l x : String)
    (hlx : (l, x) ∈ t.stt_translations) :
    (⟨l, tidBytes8 ext t.task_id, x, 1⟩ : PreEntry) ∈ taskPre ext t := by
  have hne : t.stt_translations.isEmpty = false :=
    List.isEmpty_eq_false.mpr (List.ne_nil_of_mem hlx)
  simp only [taskPre, List.mem_append]
  right
  rw [if_pos (by rw [htr, hne]; rfl)]
  exact List.mem_map.mpr ⟨(l, x), hlx, rfl⟩

/-! ### The language sets of the blob -/

theorem mem_langKeys_iff (ext : Ext) (tasks : List TaskData) (l : String) :
    l ∈ langKeys (packEntries ext tasks)
      ↔ ∃ p ∈ packPre ext tasks, p.lang = l := by
  unfold langKeys
  rw [List.mem_dedup]
  constructor
  · intro h
    rcases List.mem_map.mp h with ⟨e, he, hel⟩
    exact ⟨e.toPre, mem_addOffsets_toPre ext 0 _ e he, hel⟩
  · intro ⟨p, hp, hpl⟩
    rcases mem_addOffsets_of_mem ext 0 _ p hp with ⟨e, he, hep⟩
    exact List.mem_map.mpr ⟨e, he, by rw [show e.lang = e.toPre.lang from rfl, hep, hpl]⟩

theorem langKeys_sub_allLangs (ext : Ext) (tasks : List TaskData) (l : String)
    (h : l ∈ langKeys (packEntries ext tasks)) : l ∈ allLangs tasks := by
  rcases (mem_langKeys_iff ext tasks l).mp h with ⟨p, hp, hpl⟩
  rcases List.mem_flatMap.mp hp with ⟨t, ht, hpt⟩
  unfold allLangs
  rw [List.mem_dedup]
  exact List.mem_flatMap.mpr ⟨t, ht, hpl ▸ mem_taskPre_lang ext t p hpt⟩

theorem allLangs_sub_langKeys (ext : Ext) (tasks : List TaskData)
    (hWF : SourceTextsPresent tasks) (l : String) (h : l ∈ allLangs tasks) :
    l ∈ langKeys (packEntries ext tasks) := by
  unfold allLangs at h
  rw [List.mem_dedup] at h
  rcases List.mem_flatMap.mp h with ⟨t, ht, hlt⟩
  rcases hWF t ht with ⟨hWFo, hWFs⟩
  rw [mem_langKeys_iff]
  simp only [taskLangs, List.mem_append] at hlt
  rcases hlt with hlt | hlt
  · by_cases hc : t.original_translations.isEmpty
    · rw [if_neg (by rw [hc]; decide)] at hlt
      simp at hlt
    · rw [if_pos (by rw [Bool.not_eq_true] at hc; rw [hc]; rfl)] at hlt
      rcases List.mem_map.mp hlt with ⟨p, hp, hpl⟩
      have htr := hWFo fun hnil => hc (by rw [hnil]; rfl)
      exact ⟨⟨p.1, tidBytes8 ext t.task_id, p.2, 0⟩,
        List.mem_flatMap.mpr ⟨t, ht, orig_mem_taskPre ext t htr p.1 p.2 hp⟩, hpl⟩
  · by_cases hc : t.stt_translations.isEmpty
    · rw [if_neg (by rw [hc]; decide)] at hlt
      simp at hlt
    · rw [if_pos (by rw [Bool.not_eq_true] at hc; rw [hc]; rfl)] at hlt
      rcases List.mem_map.mp hlt with ⟨p, hp, hpl⟩
      have htr := hWFs fun hnil => hc (by rw [hnil]; rfl)
      exact ⟨⟨p.1, tidBytes8 ext t.task_id, p.2, 1⟩,
        List.mem_flatMap.mpr ⟨t, ht, stt_mem_taskPre ext t htr p.1 p.2 hp⟩, hpl⟩

theorem allLangs_perm_langKeys (ext : Ext) (tasks : List TaskData)
    (hWF : SourceTextsPresent tasks) :
    (allLangs tasks).Perm (langKeys (packEntries ext tasks)) :=
  (List.perm_ext_iff_of_nodup (List.nodup_dedup _) (List.nodup_dedup _)).mpr
    fun l => ⟨allLangs_sub_langKeys ext tasks hWF l, langKeys_sub_allLangs ext tasks l⟩

theorem sortedKeys_perm (entries : List PackEntry) :
    (sortedKeys entries).Perm (langKeys entries) :=
  List.perm_insertionSort _ _

theorem sortedKeys_nodup (entries : List PackEntry) :
    (sortedKeys entries).Nodup :=
  ((sortedKeys_perm entries).nodup_iff).mpr (List.nodup_dedup _)

theorem sortedKeys_length (ext : Ext) (tasks : List TaskData)
    (hWF : SourceTextsPresent tasks) :
    (sortedKeys (packEntries ext tasks)).length = (allLangs tasks).length :=
  ((sortedKeys_perm _).trans (allLangs_perm_langKeys ext tasks hWF).symm).length_eq

/-! ### Shapes of the index regions -/

theorem byteSlice_at (pre mid rest : List Nat) :
    byteSlice (pre ++ (mid ++ rest)) (pre.length + 0) mid.length = mid := by
  rw [byteSlice_append_shift]
  exact byteSlice_start mid rest

theorem readLE32_here (v : Nat) (rest : List Nat) (hv : v < 4294967296) :
    readLE32 (le32 v ++ rest) 0 = v := by
  unfold readLE32
  have h4 : byteSlice (le32 v ++ rest) 0 4 = le32 v := by
    have := byteSlice_start (le32 v) rest
    rwa [le32_length] at this
  rw [h4]
  exact leVal_le32 v hv

theorem readLE32_append_at (pre : List Nat) (v : Nat) (rest : List Nat)
    (hv : v < 4294967296) :
    readLE32 (pre ++ (le32 v ++ rest)) pre.length = v := by
  unfold readLE32
  have h4 : byteSlice (pre ++ (le32 v ++ rest)) (pre.length + 0) 4 = le32 v := by
    have := byteSlice_at pre (le32 v) rest
    rwa [le32_length] at this
  rw [Nat.add_zero] at h4
  rw [h4]
  exact leVal_le32 v hv

@[simp] theorem langRecBytes_length (it : Nat × Nat × Nat) :
    (langRecBytes it).length = 12 := rfl

theorem langIndexBytes_eq_flatten (ext : Ext) (entries : List PackEntry)
    (keys : List String) (acc : Nat) :
    langIndexBytes ext entries keys acc
      = ((langItems ext entries keys acc).map langRecBytes).flatten := by
  induction keys generalizing acc with
  | nil => rfl
  | cons l ls ih => simp [langIndexBytes, langItems, langRecBytes, ih]

theorem langItems_length (ext : Ext) (entries : List PackEntry)
    (keys : List String) (acc : Nat) :
    (langItems ext entries keys acc).length = keys.length := by
  induction keys generalizing acc with
  | nil => rfl
  | cons l ls ih => simp [langItems, ih]

theorem langIndexBytes_length (ext : Ext) (entries : List PackEntry)
    (keys : List String) (acc : Nat) :
    (langIndexBytes ext entries keys acc).length = 12 * keys.length := by
  rw [langIndexBytes_eq_flatten, length_flatten_eq_sumLen]
  induction keys generalizing acc with
  | nil => rfl
  | cons l ls ih =>
    simp only [langItems, List.map_cons, sumLen_cons, langRecBytes_length, List.length_cons]
    rw [ih]
    ring

theorem countsSum_nil (entries : List PackEntry) : countsSum entries [] = 0 := rfl

theorem countsSum_cons (entries : List PackEntry) (l : String) (ls : List String) :
    countsSum entries (l :: ls)
      = (entriesFor entries l).length + countsSum entries ls := by
  simp [countsSum]

theorem countsSum_append (entries : List PackEntry) (ks₁ ks₂ : List String) :
    countsSum entries (ks₁ ++ ks₂) = countsSum entries ks₁ + countsSum entries ks₂ := by
  simp [countsSum]

theorem countsSum_take_le (entries : List PackEntry) (ks : List String) (k : Nat) :
    countsSum entries (ks.take k) ≤ countsSum entries ks := by
  conv_rhs => rw [← List.take_append_drop k ks]
  rw [countsSum_append]
  omega

theorem langItems_get (ext : Ext) (entries : List PackEntry)
    (keys : List String) (acc k : Nat) (hk : k < keys.length)
    (hk' : k < (langItems ext entries keys acc).length) :
    (langItems ext entries keys acc).get ⟨k, hk'⟩
      = (ext.md5h (keys.get ⟨k, hk⟩),
         acc + 20 * countsSum entries (keys.take k),
         (entriesFor entries (keys.get ⟨k, hk⟩)).length) := by
  induction keys generalizing acc k with
  | nil => simp at hk
  | cons l ls ih =>
    cases k with
    | zero => simp [langItems, countsSum]
    | succ k =>
      have hk2 : k < ls.length := by simpa using hk
      have hk2' : k < (langItems ext entries ls
          (acc + 20 * (entriesFor entries l).length)).length := by
        rw [langItems_length]
        exact hk2
      have := ih (acc + 20 * (entriesFor entries l).length) k hk2 hk2'
      simp only [langItems, List.get, List.take_succ_cons, countsSum_cons]
      rw [this]
      refine congrArg (fun z => (ext.md5h (ls.get ⟨k, hk2⟩), z,
        (entriesFor entries (ls.get ⟨k, hk2⟩)).length)) ?_
      ring

theorem record20_length (ext : Ext) (e : PackEntry) (h8 : e.tid.length = 8) :
    (record20 ext e).length = 20 := by
  simp [record20, h8]

theorem sumLen_map_record20 (ext : Ext) (es : List PackEntry)
    (h : ∀ e ∈ es, (record20 ext e).length = 20) :
    sumLen (es.map (record20 ext)) = 20 * es.length := by
  induction es with
  | nil => rfl
  | cons e es ih =>
    simp only [List.map_cons, sumLen_cons, List.length_cons]
    rw [h e (List.mem_cons_self e es), ih (fun x hx => h x (List.mem_cons_of_mem e hx))]
    ring

theorem langBlock_length (ext : Ext) (entries : List PackEntry) (l : String)
    (h8 : ∀ e ∈ entries, e.tid.length = 8) :
    (langBlock ext entries l).length = 20 * (entriesFor entries l).length := by
  unfold langBlock
  rw [length_flatten_eq_sumLen]
  exact sumLen_map_record20 ext _ fun e he =>
    record20_length ext e (h8 e (List.mem_of_mem_filter he))

theorem textIndexBytes_eq_blocks (ext : Ext) (entries : List PackEntry)
    (keys : List String) :
    textIndexBytes ext entries keys = ((keys.map (langBlock ext entries)).flatten) := rfl

theorem sumLen_langBlocks (ext : Ext) (entries : List PackEntry) (ks : List String)
    (h8 : ∀ e ∈ entries, e.tid.length = 8) :
    sumLen (ks.map (langBlock ext entries)) = 20 * countsSum entries ks := by
  induction ks with
  | nil => rfl
  | cons l ls ih =>
    simp only [List.map_cons, sumLen_cons, countsSum_cons]
    rw [langBlock_length ext entries l h8, ih]
    ring

theorem textIndexBytes_length (ext : Ext) (entries : List PackEntry)
    (keys : List String) (h8 : ∀ e ∈ entries, e.tid.length = 8) :
    (textIndexBytes ext entries keys).length = 20 * countsSum entries keys := by
  rw [textIndexBytes_eq_blocks, length_flatten_eq_sumLen]
  exact sumLen_langBlocks ext entries keys h8

/-! ### Field reads inside the fixed-size records -/

theorem record20_slice_tid (ext : Ext) (e : PackEntry) (h8 : e.tid.length = 8) :
    byteSlice (record20 ext e) 0 8 = e.tid := by
  unfold record20
  simp only [List.append_assoc]
  have := byteSlice_start e.tid
    (le32 e.off ++ (le32 (entryComp ext e).length ++ (le16 e.srcType ++ le16 0)))
  rwa [h8] at this

theorem record20_slice_off (ext : Ext) (e : PackEntry) (h8 : e.tid.length = 8) :
    byteSlice (record20 ext e) 8 4 = le32 e.off := by
  unfold record20
  simp only [List.append_assoc]
  have := byteSlice_at e.tid (le32 e.off)
    (le32 (entryComp ext e).length ++ (le16 e.srcType ++ le16 0))
  rwa [h8, le32_length, Nat.add_zero] at this

theorem record20_slice_len (ext : Ext) (e : PackEntry) (h8 : e.tid.length = 8) :
    byteSlice (record20 ext e) 12 4 = le32 (entryComp ext e).length := by
  unfold record20
  simp only [List.append_assoc]
  have h := byteSlice_at (e.tid ++ le32 e.off) (le32 (entryComp ext e).length)
    (le16 e.srcType ++ le16 0)
  rw [List.length_append, h8, le32_length, le32_length, Nat.add_zero] at h
  rw [← List.append_assoc] at h
  simpa using h

theorem record20_slice_srcType (ext : Ext) (e : PackEntry) (h8 : e.tid.length = 8) :
    byteSlice (record20 ext e) 16 2 = le16 e.srcType := by
  unfold record20
  simp only [List.append_assoc]
  have h := byteSlice_at (e.tid ++ (le32 e.off ++ le32 (entryComp ext e).length))
    (le16 e.srcType) (le16 0)
  rw [List.length_append, List.length_append, h8, le32_length, le32_length,
    le16_length, Nat.add_zero] at h
  rw [← List.append_assoc, ← List.append_assoc] at h
  simpa using h

theorem langRec_slice_hash (it : Nat × Nat × Nat) :
    byteSlice (langRecBytes it) 0 4 = le32 it.1 := by
  unfold langRecBytes
  simp only [List.append_assoc]
  have := byteSlice_start (le32 it.1) (le32 it.2.1 ++ le32 it.2.2)
  rwa [le32_length] at this

theorem langRec_slice_rel (it : Nat × Nat × Nat) :
    byteSlice (langRecBytes it) 4 4 = le32 it.2.1 := by
  unfold langRecBytes
  simp only [List.append_assoc]
  have := byteSlice_at (le32 it.1) (le32 it.2.1) (le32 it.2.2)
  rwa [le32_length, le32_length, Nat.add_zero] at this

theorem langRec_slice_cnt (it : Nat × Nat × Nat) :
    byteSlice (langRecBytes it) 8 4 = le32 it.2.2 := by
  unfold langRecBytes
  have h := byteSlice_at (le32 it.1 ++ le32 it.2.1) (le32 it.2.2) []
  rw [List.length_append, le32_length, le32_length, le32_length, Nat.add_zero,
    List.append_nil] at h
  simpa using h

/-! ### Reading record fields out of the blob -/

theorem read_langRec_fields (blob : List Nat) (pos : Nat) (it : Nat × Nat × Nat)
    (hslice : byteSlice blob pos 12 = langRecBytes it)
    (h1 : it.1 < 4294967296) (h2 : it.2.1 < 4294967296) (h3 : it.2.2 < 4294967296) :
    readLE32 blob pos = it.1 ∧ readLE32 blob (pos + 4) = it.2.1 ∧
      readLE32 blob (pos + 8) = it.2.2 := by
  refine ⟨?_, ?_, ?_⟩
  · unfold readLE32
    have h := byteSlice_sub blob pos 0 4 12 (by omega)
    rw [Nat.add_zero] at h
    rw [← h, hslice, langRec_slice_hash]
    exact leVal_le32 _ h1
  · unfold readLE32
    have h := byteSlice_sub blob pos 4 4 12 (by omega)
    rw [← h, hslice, langRec_slice_rel]
    exact leVal_le32 _ h2
  · unfold readLE32
    have h := byteSlice_sub blob pos 8 4 12 (by omega)
    rw [← h, hslice, langRec_slice_cnt]
    exact leVal_le32 _ h3

theorem read_record20_fields (ext : Ext) (blob : List Nat) (pos : Nat) (e : PackEntry)
    (hslice : byteSlice blob pos 20 = record20 ext e) (h8 : e.tid.length = 8)
    (hoff : e.off < 4294967296) (hlen : (entryComp ext e).length < 4294967296)
    (hst : e.srcType < 65536) :
    byteSlice blob pos 8 = e.tid ∧ readLE32 blob (pos + 8) = e.off ∧
      readLE32 blob (pos + 12) = (entryComp ext e).length ∧
      readLE16 blob (pos + 16) = e.srcType := by
  refine ⟨?_, ?_, ?_, ?_⟩
  · have h := byteSlice_sub blob pos 0 8 20 (by omega)
    rw [Nat.add_zero] at h
    rw [← h, hslice, record20_slice_tid ext e h8]
  · unfold readLE32
    have h := byteSlice_sub blob pos 8 4 20 (by omega)
    rw [← h, hslice, record20_slice_off ext e h8]
    exact leVal_le32 _ hoff
  · unfold readLE32
    have h := byteSlice_sub blob pos 12 4 20 (by omega)
    rw [← h, hslice, record20_slice_len ext e h8]
    exact leVal_le32 _ hlen
  · unfold readLE16
    have h := byteSlice_sub blob pos 16 2 20 (by omega)
    rw [← h, hslice, record20_slice_srcType ext e h8]
    exact leVal_le16 _ hst

/-! ### Correctness of the two query scans -/

theorem scanLangIdx_found (blob : List Nat) (target base : Nat)
    (items : List (Nat × Nat × Nat))
    (henc : ∀ j, (hj : j < items.length) →
      byteSlice blob (base + j * 12) 12 = langRecBytes (items.get ⟨j, hj⟩) ∧
        base + j * 12 + 12 ≤ blob.length)
    (hb : ∀ it ∈ items, it.1 < 4294967296 ∧ it.2.1 < 4294967296 ∧ it.2.2 < 4294967296)
    (k : Nat) (hk : k < items.length)
    (hhit : (items.get ⟨k, hk⟩).1 = target)
    (hmiss : ∀ j, (hj : j < items.length) → j < k → (items.get ⟨j, hj⟩).1 ≠ target) :
    ∀ n i, i + n = items.length → i ≤ k →
      scanLangIdx blob target base n i
        = some ((items.get ⟨k, hk⟩).2.1, (items.get ⟨k, hk⟩).2.2) := by
  intro n
  induction n with
  | zero =>
    intro i hi hik
    exact absurd hk (by omega)
  | succ n ih =>
    intro i hi hik
    have hilt : i < items.length := by omega
    have hrec := henc i hilt
    have hbi := hb (items.get ⟨i, hilt⟩) (items.get_mem i hilt)
    have hfields := read_langRec_fields blob (base + i * 12) (items.get ⟨i, hilt⟩)
      hrec.1 hbi.1 hbi.2.1 hbi.2.2
    unfold scanLangIdx
    rw [if_pos hrec.2]
    by_cases hik2 : i = k
    · subst hik2
      rw [if_pos (by rw [hfields.1]; exact hhit)]
      rw [hfields.2.1, hfields.2.2]
    · have hlt : i < k := by omega
      rw [if_neg (by rw [hfields.1]; exact hmiss i hilt hlt)]
      exact ih (i + 1) (by omega) (by omega)

theorem scanText_found (ext : Ext) (blob : List Nat) (tdo : Nat) (tid : List Nat)
    (code base : Nat) (es : List PackEntry)
    (henc : ∀ j, (hj : j < es.length) →
      byteSlice blob (base + j * 20) 20 = record20 ext (es.get ⟨j, hj⟩) ∧
        base + j * 20 + 20 ≤ blob.length)
    (h8 : ∀ e ∈ es, e.tid.length = 8)
    (hb : ∀ e ∈ es, e.off < 4294967296 ∧ (entryComp ext e).length < 4294967296 ∧
      e.srcType < 65536)
    (k : Nat) (hk : k < es.length)
    (hhit : (es.get ⟨k, hk⟩).tid = tid ∧ (es.get ⟨k, hk⟩).srcType = code)
    (hmiss : ∀ j, (hj : j < es.length) → j < k →
      ¬((es.get ⟨j, hj⟩).tid = tid ∧ (es.get ⟨j, hj⟩).srcType = code))
    (hdata : tdo + (es.get ⟨k, hk⟩).off + (entryComp ext (es.get ⟨k, hk⟩)).length
      ≤ blob.length)
    (hslice : byteSlice blob (tdo + (es.get ⟨k, hk⟩).off)
      (entryComp ext (es.get ⟨k, hk⟩)).length = entryComp ext (es.get ⟨k, hk⟩))
    (hdec : ext.zdecomp (entryComp ext (es.get ⟨k, hk⟩))
      = some (ext.utf8 (es.get ⟨k, hk⟩).text))
    (hudec : ext.utf8Dec (ext.utf8 (es.get ⟨k, hk⟩).text)
      = some (es.get ⟨k, hk⟩).text) :
    ∀ n i, i + n = es.length → i ≤ k →
      scanText ext blob tdo tid code base n i
        = .ok (some (es.get ⟨k, hk⟩).text) := by
  intro n
  induction n with
  | zero =>
    intro i hi hik
    exact absurd hk (by omega)
  | succ n ih =>
    intro i hi hik
    have hilt : i < es.length := by omega
    have hrec := henc i hilt
    have hbi := hb (es.get ⟨i, hilt⟩) (es.get_mem i hilt)
    have h8i := h8 (es.get ⟨i, hilt⟩) (es.get_mem i hilt)
    have hfields := read_record20_fields ext blob (base + i * 20) (es.get ⟨i, hilt⟩)
      hrec.1 h8i hbi.1 hbi.2.1 hbi.2.2
    unfold scanText
    rw [if_pos hrec.2]
    by_cases hik2 : i = k
    · subst hik2
      have hhit2 : (es.get ⟨i, hilt⟩).tid = tid ∧ (es.get ⟨i, hilt⟩).srcType = code := hhit
      have hdata2 : tdo + (es.get ⟨i, hilt⟩).off
          + (entryComp ext (es.get ⟨i, hilt⟩)).length ≤ blob.length := hdata
      have hslice2 : byteSlice blob (tdo + (es.get ⟨i, hilt⟩).off)
          (entryComp ext (es.get ⟨i, hilt⟩)).length
          = entryComp ext (es.get ⟨i, hilt⟩) := hslice
      have hdec2 : ext.zdecomp (entryComp ext (es.get ⟨i, hilt⟩))
          = some (ext.utf8 (es.get ⟨i, hilt⟩).text) := hdec
      have hudec2 : ext.utf8Dec (ext.utf8 (es.get ⟨i, hilt⟩).text)
          = some (es.get ⟨i, hilt⟩).text := hudec
      rw [if_pos (by rw [hfields.1, hfields.2.2.2]; exact hhit2)]
      rw [hfields.2.1, hfields.2.2.1]
      rw [if_pos hdata2, hslice2, hdec2]
      show (match ext.utf8Dec (ext.utf8 (es.get ⟨i, hilt⟩).text) with
        | none => Except.error ()
        | some s => Except.ok (some s))
          = Except.ok (some (es.get ⟨i, hk⟩).text)
      rw [hudec2]
    · have hlt : i < k := by omega
      rw [if_neg (by rw [hfields.1, hfields.2.2.2]; exact hmiss i hilt hlt)]
      exact ih (i + 1) (by omega) (by omega)

/-! ### Properties of the packed entry list -/

theorem packEntries_tid8 (ext : Ext) (tasks : List TaskData) (e : PackEntry)
    (he : e ∈ packEntries ext tasks) : e.tid.length = 8 := by
  have hpre := mem_addOffsets_toPre ext 0 _ e he
  rcases List.mem_flatMap.mp hpre with ⟨t, _, het⟩
  have := mem_taskPre_tid ext t e.toPre het
  have htid : e.tid = tidBytes8 ext t.task_id := this
  rw [htid, tidBytes8_length]

theorem packEntries_srcType (ext : Ext) (tasks : List TaskData) (e : PackEntry)
    (he : e ∈ packEntries ext tasks) : e.srcType = 0 ∨ e.srcType = 1 := by
  have hpre := mem_addOffsets_toPre ext 0 _ e he
  rcases List.mem_flatMap.mp hpre with ⟨t, _, het⟩
  exact mem_taskPre_srcType ext t e.toPre het

theorem packPre_nodup (ext : Ext) (tasks : List TaskData)
    (hids : (tasks.map fun t => tidBytes8 ext t.task_id).Nodup)
    (hkeys : ∀ t ∈ tasks, (t.original_translations.map Prod.fst).Nodup
      ∧ (t.stt_translations.map Prod.fst).Nodup) :
    (packPre ext tasks).Nodup :=
  (packPre_key_nodup ext tasks hids hkeys).of_map

theorem packEntries_toPre_injOn (ext : Ext) (tasks : List TaskData)
    (hids : (tasks.map fun t => tidBytes8 ext t.task_id).Nodup)
    (hkeys : ∀ t ∈ tasks, (t.original_translations.map Prod.fst).Nodup
      ∧ (t.stt_translations.map Prod.fst).Nodup)
    (e₁ e₂ : PackEntry) (h₁ : e₁ ∈ packEntries ext tasks)
    (h₂ : e₂ ∈ packEntries ext tasks) (h : e₁.toPre = e₂.toPre) : e₁ = e₂ := by
  have hnd : ((packEntries ext tasks).map PackEntry.toPre).Nodup := by
    rw [packEntries, addOffsets_map_toPre]
    exact packPre_nodup ext tasks hids hkeys
  exact List.inj_on_of_nodup_map hnd h₁ h₂ h

theorem packEntries_nodup (ext : Ext) (tasks : List TaskData)
    (hids : (tasks.map fun t => tidBytes8 ext t.task_id).Nodup)
    (hkeys : ∀ t ∈ tasks, (t.original_translations.map Prod.fst).Nodup
      ∧ (t.stt_translations.map Prod.fst).Nodup) :
    (packEntries ext tasks).Nodup := by
  have hnd : ((packEntries ext tasks).map PackEntry.toPre).Nodup := by
    rw [packEntries, addOffsets_map_toPre]
    exact packPre_nodup ext tasks hids hkeys
  exact hnd.of_map

@[simp] theorem packHdr_length (ext : Ext) (tasks : List TaskData) :
    (packHdr ext tasks).length = packLangIdxOff ext tasks := by
  simp [packHdr, packLangIdxOff]
  omega

theorem pack_eq_parts (ext : Ext) (tasks : List TaskData)
    (hne : ¬(allLangs tasks).isEmpty = true) :
    pack_multiple_translations ext tasks
      = packHdr ext tasks ++ (packLI ext tasks ++ (packTI ext tasks ++ packTD ext tasks)) := by
  unfold pack_multiple_translations pack_mt_withSetOrder
  rw [if_neg hne]
  simp only [packHdr, packTable, packLangIdxOff, packLI, packTextIdxOff, packTI, packTDO, packTD,
    packEntries, List.append_assoc]

theorem pack_length_eq (ext : Ext) (tasks : List TaskData)
    (hne : ¬(allLangs tasks).isEmpty = true) :
    (pack_multiple_translations ext tasks).length
      = packLangIdxOff ext tasks + (packLI ext tasks).length + (packTI ext tasks).length
        + (packTD ext tasks).length := by
  rw [pack_eq_parts ext tasks hne]
  simp only [List.length_append, packHdr_length]
  omega

/-! ### The language-index scan of a packed blob finds its language -/

theorem pack_langScan (ext : Ext) (tasks : List TaskData)
    (hWF : SourceTextsPresent tasks)
    (hhlt : ∀ l ∈ allLangs tasks, ext.md5h l < 4294967296)
    (hhinj : ∀ l₁ ∈ allLangs tasks, ∀ l₂ ∈ allLangs tasks,
      ext.md5h l₁ = ext.md5h l₂ → l₁ = l₂)
    (hsize : (pack_multiple_translations ext tasks).length < 4294967296)
    (l : String) (hl : l ∈ langKeys (packEntries ext tasks)) :
    ∃ k, ∃ hk : k < (sortedKeys (packEntries ext tasks)).length,
      (sortedKeys (packEntries ext tasks)).get ⟨k, hk⟩ = l ∧
      scanLangIdx (pack_multiple_translations ext tasks) (ext.md5h l)
          (packLangIdxOff ext tasks) (allLangs tasks).length 0
        = some (20 * countsSum (packEntries ext tasks)
              ((sortedKeys (packEntries ext tasks)).take k),
            (entriesFor (packEntries ext tasks) l).length) := by
  have h8E : ∀ e ∈ packEntries ext tasks, e.tid.length = 8 :=
    fun e he => packEntries_tid8 ext tasks e he
  have hKeq := sortedKeys_length ext tasks hWF
  have hne : ¬(allLangs tasks).isEmpty = true := by
    intro h
    rw [List.isEmpty_eq_true] at h
    have := langKeys_sub_allLangs ext tasks l hl
    rw [h] at this
    exact absurd this (List.not_mem_nil l)
  have hlen := pack_length_eq ext tasks hne
  have hLIlen : (packLI ext tasks).length
      = 12 * (sortedKeys (packEntries ext tasks)).length :=
    langIndexBytes_length ext (packEntries ext tasks) _ 0
  have hTIlen : (packTI ext tasks).length
      = 20 * countsSum (packEntries ext tasks) (sortedKeys (packEntries ext tasks)) :=
    textIndexBytes_length ext (packEntries ext tasks) _ h8E
  have hlmem : l ∈ sortedKeys (packEntries ext tasks) :=
    ((sortedKeys_perm (packEntries ext tasks)).mem_iff).mpr hl
  obtain ⟨⟨k, hk⟩, hkeq⟩ := List.mem_iff_get.mp hlmem
  have hitemslen := langItems_length ext (packEntries ext tasks)
    (sortedKeys (packEntries ext tasks)) 0
  -- every abstract language-index record sits at its position in the blob
  have henc : ∀ j, ∀ hj : j < (langItems ext (packEntries ext tasks)
      (sortedKeys (packEntries ext tasks)) 0).length,
      byteSlice (pack_multiple_translations ext tasks) (packLangIdxOff ext tasks + j * 12) 12
        = langRecBytes ((langItems ext (packEntries ext tasks)
            (sortedKeys (packEntries ext tasks)) 0).get ⟨j, hj⟩) ∧
      packLangIdxOff ext tasks + j * 12 + 12 ≤ (pack_multiple_translations ext tasks).length := by
    intro j hj
    have hj2 : j < (sortedKeys (packEntries ext tasks)).length := hitemslen ▸ hj
    constructor
    · calc byteSlice (pack_multiple_translations ext tasks)
            (packLangIdxOff ext tasks + j * 12) 12
          = byteSlice (packHdr ext tasks ++ (packLI ext tasks
              ++ (packTI ext tasks ++ packTD ext tasks)))
            ((packHdr ext tasks).length + j * 12) 12 := by
            rw [pack_eq_parts ext tasks hne, packHdr_length]
        _ = byteSlice (packLI ext tasks ++ (packTI ext tasks ++ packTD ext tasks))
            (j * 12) 12 := byteSlice_append_shift _ _ _ _
        _ = byteSlice (((langItems ext (packEntries ext tasks)
              (sortedKeys (packEntries ext tasks)) 0).map langRecBytes).flatten
              ++ (packTI ext tasks ++ packTD ext tasks)) (12 * j) 12 := by
            rw [Nat.mul_comm, packLI, langIndexBytes_eq_flatten]
        _ = langRecBytes ((langItems ext (packEntries ext tasks)
              (sortedKeys (packEntries ext tasks)) 0).get ⟨j, hj⟩) :=
            byteSlice_flatten_fixed langRecBytes 12 _ _ j hj (fun x _ => rfl)
    · rw [hlen, hLIlen]
      omega
  -- bounds on the abstract record fields
  have hbounds : ∀ it ∈ langItems ext (packEntries ext tasks)
      (sortedKeys (packEntries ext tasks)) 0,
      it.1 < 4294967296 ∧ it.2.1 < 4294967296 ∧ it.2.2 < 4294967296 := by
    intro it hit
    obtain ⟨⟨j, hj⟩, hjeq⟩ := List.mem_iff_get.mp hit
    have hj2 : j < (sortedKeys (packEntries ext tasks)).length := hitemslen ▸ hj
    rw [← hjeq, langItems_get ext (packEntries ext tasks) _ 0 j hj2 hj]
    have hjall : (sortedKeys (packEntries ext tasks)).get ⟨j, hj2⟩ ∈ allLangs tasks :=
      langKeys_sub_allLangs ext tasks _
        (((sortedKeys_perm (packEntries ext tasks)).mem_iff).mp (List.get_mem _ _ _))
    refine ⟨hhlt _ hjall, ?_, ?_⟩
    · show 0 + 20 * countsSum (packEntries ext tasks)
          ((sortedKeys (packEntries ext tasks)).take j) < 4294967296
      have h1 : countsSum (packEntries ext tasks)
          ((sortedKeys (packEntries ext tasks)).take j)
          ≤ countsSum (packEntries ext tasks) (sortedKeys (packEntries ext tasks)) :=
        countsSum_take_le _ _ _
      omega
    · show (entriesFor (packEntries ext tasks)
          ((sortedKeys (packEntries ext tasks)).get ⟨j, hj2⟩)).length < 4294967296
      have h2 : (entriesFor (packEntries ext tasks)
          ((sortedKeys (packEntries ext tasks)).get ⟨j, hj2⟩)).length
          ≤ countsSum (packEntries ext tasks) (sortedKeys (packEntries ext tasks)) := by
        refine List.single_le_sum (fun x _ => Nat.zero_le x) _ ?_
        exact List.mem_map_of_mem _ (List.get_mem _ _ _)
      omega
  -- the hit and the misses
  have hhit : ((langItems ext (packEntries ext tasks)
      (sortedKeys (packEntries ext tasks)) 0).get ⟨k, hitemslen ▸ hk⟩).1
      = ext.md5h l := by
    rw [langItems_get ext (packEntries ext tasks) _ 0 k hk (hitemslen ▸ hk), hkeq]
  have hmiss : ∀ j, ∀ hj : j < (langItems ext (packEntries ext tasks)
      (sortedKeys (packEntries ext tasks)) 0).length, j < k →
      ((langItems ext (packEntries ext tasks)
        (sortedKeys (packEntries ext tasks)) 0).get ⟨j, hj⟩).1 ≠ ext.md5h l := by
    intro j hj hjk hfalse
    have hj2 : j < (sortedKeys (packEntries ext tasks)).length := hitemslen ▸ hj
    rw [langItems_get ext (packEntries ext tasks) _ 0 j hj2 hj] at hfalse
    have hjall : (sortedKeys (packEntries ext tasks)).get ⟨j, hj2⟩ ∈ allLangs tasks :=
      langKeys_sub_allLangs ext tasks _
        (((sortedKeys_perm (packEntries ext tasks)).mem_iff).mp (List.get_mem _ _ _))
    have hlall : l ∈ allLangs tasks := langKeys_sub_allLangs ext tasks l hl
    have heq := hhinj _ hjall _ hlall hfalse
    have : (sortedKeys (packEntries ext tasks)).get ⟨j, hj2⟩
        = (sortedKeys (packEntries ext tasks)).get ⟨k, hk⟩ := by rw [heq, hkeq]
    have hjk2 := (List.Nodup.get_inj_iff (sortedKeys_nodup (packEntries ext tasks))).mp this
    have : j = k := congrArg Fin.val hjk2
    omega
  refine ⟨k, hk, hkeq, ?_⟩
  have hscan := scanLangIdx_found (pack_multiple_translations ext tasks) (ext.md5h l)
    (packLangIdxOff ext tasks) _ henc hbounds k (hitemslen ▸ hk) hhit hmiss
    (langItems ext (packEntries ext tasks) (sortedKeys (packEntries ext tasks)) 0).length
    0 (by omega) (Nat.zero_le k)
  have hn : (allLangs tasks).length
      = (langItems ext (packEntries ext tasks)
          (sortedKeys (packEntries ext tasks)) 0).length := by
    rw [hitemslen, hKeq]
  rw [hn, hscan,
    langItems_get ext (packEntries ext tasks) _ 0 k hk (hitemslen ▸ hk), hkeq]
  simp

/-! ### The text-index scan of a packed blob finds its entry -/

theorem pack_textScan (ext : Ext) (tasks : List TaskData)
    (hids : (tasks.map fun t => tidBytes8 ext t.task_id).Nodup)
    (hkeys : ∀ t ∈ tasks, (t.original_translations.map Prod.fst).Nodup
      ∧ (t.stt_translations.map Prod.fst).Nodup)
    (hsize : (pack_multiple_translations ext tasks).length < 4294967296)
    (p : PreEntry) (hp : p ∈ packPre ext tasks)
    (task_id : String) (htid : p.tid = tidBytes8 ext task_id)
    (hdec : ext.zdecomp (ext.zcomp (ext.utf8 p.text)) = some (ext.utf8 p.text))
    (hudec : ext.utf8Dec (ext.utf8 p.text) = some p.text)
    (k : Nat) (hk : k < (sortedKeys (packEntries ext tasks)).length)
    (hkeq : (sortedKeys (packEntries ext tasks)).get ⟨k, hk⟩ = p.lang) :
    scanText ext (pack_multiple_translations ext tasks) (packTDO ext tasks)
        (tidBytes8 ext task_id) p.srcType
        (packTextIdxOff ext tasks + 20 * countsSum (packEntries ext tasks)
          ((sortedKeys (packEntries ext tasks)).take k))
        (entriesFor (packEntries ext tasks) p.lang).length 0
      = .ok (some p.text) := by
  have h8E : ∀ e ∈ packEntries ext tasks, e.tid.length = 8 :=
    fun e he => packEntries_tid8 ext tasks e he
  have hne : ¬(allLangs tasks).isEmpty = true := by
    intro h
    rw [List.isEmpty_eq_true] at h
    have hmem : p.lang ∈ allLangs tasks :=
      langKeys_sub_allLangs ext tasks p.lang ((mem_langKeys_iff ext tasks p.lang).mpr ⟨p, hp, rfl⟩)
    rw [h] at hmem
    exact absurd hmem (List.not_mem_nil _)
  have hlen := pack_length_eq ext tasks hne
  have hTIlen : (packTI ext tasks).length
      = 20 * countsSum (packEntries ext tasks) (sortedKeys (packEntries ext tasks)) :=
    textIndexBytes_length ext (packEntries ext tasks) _ h8E
  have hTDlen : (packTD ext tasks).length
      = sumLen ((packPre ext tasks).map fun q => ext.zcomp (ext.utf8 q.text)) := by
    show ((packEntries ext tasks).map (entryComp ext)).flatten.length = _
    rw [length_flatten_eq_sumLen, packEntries, addOffsets_map_comp]
    rfl
  -- the sorted key list split at position k
  have hsplit : sortedKeys (packEntries ext tasks)
      = (sortedKeys (packEntries ext tasks)).take k
        ++ (p.lang :: (sortedKeys (packEntries ext tasks)).drop (k + 1)) := by
    conv_lhs => rw [← List.take_append_drop k (sortedKeys (packEntries ext tasks))]
    rw [List.drop_eq_getElem_cons hk]
    rw [show (sortedKeys (packEntries ext tasks))[k] = p.lang from hkeq]
  have hBpre : (((sortedKeys (packEntries ext tasks)).take k).map
        (langBlock ext (packEntries ext tasks))).flatten.length
      = 20 * countsSum (packEntries ext tasks)
          ((sortedKeys (packEntries ext tasks)).take k) := by
    rw [length_flatten_eq_sumLen]
    exact sumLen_langBlocks ext (packEntries ext tasks) _ h8E
  have hcs : countsSum (packEntries ext tasks) (sortedKeys (packEntries ext tasks))
      = countsSum (packEntries ext tasks) ((sortedKeys (packEntries ext tasks)).take k)
        + (entriesFor (packEntries ext tasks) p.lang).length
        + countsSum (packEntries ext tasks)
            ((sortedKeys (packEntries ext tasks)).drop (k + 1)) := by
    conv_lhs => rw [hsplit]
    rw [countsSum_append, countsSum_cons]
    ring
  -- the text-index region split as before-block ++ block ++ after-block
  have hTIsplit : packTI ext tasks
      = (((sortedKeys (packEntries ext tasks)).take k).map
          (langBlock ext (packEntries ext tasks))).flatten
        ++ (((entriesFor (packEntries ext tasks) p.lang).map (record20 ext)).flatten
          ++ (((sortedKeys (packEntries ext tasks)).drop (k + 1)).map
              (langBlock ext (packEntries ext tasks))).flatten) := by
    rw [packTI, textIndexBytes_eq_blocks]
    conv_lhs => rw [hsplit]
    rw [List.map_append, List.map_cons, List.flatten_append, List.flatten_cons]
    rfl
  -- the blob with everything before the text index as one prefix
  have hblob2 : pack_multiple_translations ext tasks
      = (packHdr ext tasks ++ packLI ext tasks)
        ++ (packTI ext tasks ++ packTD ext tasks) := by
    rw [pack_eq_parts ext tasks hne, List.append_assoc]
  have hpre2len : (packHdr ext tasks ++ packLI ext tasks).length = packTextIdxOff ext tasks := by
    rw [List.length_append, packHdr_length, packTextIdxOff]
  -- the blob with everything before the text data as one prefix
  have hblob3 : pack_multiple_translations ext tasks
      = ((packHdr ext tasks ++ packLI ext tasks) ++ packTI ext tasks)
        ++ packTD ext tasks := by
    rw [pack_eq_parts ext tasks hne, List.append_assoc, List.append_assoc]
  have hpre3len : ((packHdr ext tasks ++ packLI ext tasks) ++ packTI ext tasks).length
      = packTDO ext tasks := by
    rw [List.length_append, hpre2len, packTDO]
  -- record encodings at the scan positions
  have henc : ∀ j, ∀ hj : j < (entriesFor (packEntries ext tasks) p.lang).length,
      byteSlice (pack_multiple_translations ext tasks)
          (packTextIdxOff ext tasks + 20 * countsSum (packEntries ext tasks)
            ((sortedKeys (packEntries ext tasks)).take k) + j * 20) 20
        = record20 ext ((entriesFor (packEntries ext tasks) p.lang).get ⟨j, hj⟩) ∧
      packTextIdxOff ext tasks + 20 * countsSum (packEntries ext tasks)
          ((sortedKeys (packEntries ext tasks)).take k) + j * 20 + 20
        ≤ (pack_multiple_translations ext tasks).length := by
    intro j hj
    constructor
    · calc byteSlice (pack_multiple_translations ext tasks)
            (packTextIdxOff ext tasks + 20 * countsSum (packEntries ext tasks)
              ((sortedKeys (packEntries ext tasks)).take k) + j * 20) 20
          = byteSlice ((packHdr ext tasks ++ packLI ext tasks)
              ++ (packTI ext tasks ++ packTD ext tasks))
            ((packHdr ext tasks ++ packLI ext tasks).length
              + (20 * countsSum (packEntries ext tasks)
                  ((sortedKeys (packEntries ext tasks)).take k) + j * 20)) 20 := by
            rw [← hblob2, hpre2len, Nat.add_assoc]
        _ = byteSlice (packTI ext tasks ++ packTD ext tasks)
            (20 * countsSum (packEntries ext tasks)
              ((sortedKeys (packEntries ext tasks)).take k) + j * 20) 20 :=
            byteSlice_append_shift _ _ _ _
        _ = byteSlice ((((sortedKeys (packEntries ext tasks)).take k).map
              (langBlock ext (packEntries ext tasks))).flatten
              ++ ((((entriesFor (packEntries ext tasks) p.lang).map
                  (record20 ext)).flatten
                ++ (((sortedKeys (packEntries ext tasks)).drop (k + 1)).map
                    (langBlock ext (packEntries ext tasks))).flatten)
                ++ packTD ext tasks))
            ((((sortedKeys (packEntries ext tasks)).take k).map
                (langBlock ext (packEntries ext tasks))).flatten.length + j * 20) 20 := by
            rw [hTIsplit, List.append_assoc, hBpre]
        _ = byteSlice ((((entriesFor (packEntries ext tasks) p.lang).map
              (record20 ext)).flatten
              ++ (((sortedKeys (packEntries ext tasks)).drop (k + 1)).map
                  (langBlock ext (packEntries ext tasks))).flatten)
              ++ packTD ext tasks) (j * 20) 20 :=
            byteSlice_append_shift _ _ _ _
        _ = byteSlice (((entriesFor (packEntries ext tasks) p.lang).map
              (record20 ext)).flatten
              ++ ((((sortedKeys (packEntries ext tasks)).drop (k + 1)).map
                  (langBlock ext (packEntries ext tasks))).flatten
                ++ packTD ext tasks)) (20 * j) 20 := by
            rw [List.append_assoc, Nat.mul_comm]
        _ = record20 ext ((entriesFor (packEntries ext tasks) p.lang).get ⟨j, hj⟩) :=
            byteSlice_flatten_fixed (record20 ext) 20 _ _ j hj
              (fun e he => record20_length ext e
                (h8E e (List.mem_of_mem_filter he)))
    · rw [hlen, hTIlen, hcs]
      have : packTextIdxOff ext tasks = packLangIdxOff ext tasks + (packLI ext tasks).length := rfl
      omega
  -- bounds on the record fields
  have hb : ∀ e ∈ entriesFor (packEntries ext tasks) p.lang,
      e.off < 4294967296 ∧ (entryComp ext e).length < 4294967296 ∧ e.srcType < 65536 := by
    intro e he
    have heE : e ∈ packEntries ext tasks := List.mem_of_mem_filter he
    have hdata := addOffsets_data ext (packPre ext tasks) 0 e heE
    have hst := packEntries_srcType ext tasks e heE
    have hblen : (packTD ext tasks).length
        ≤ (pack_multiple_translations ext tasks).length := by
      rw [hlen]
      omega
    rw [hTDlen] at hblen
    refine ⟨by omega, by omega, by rcases hst with h | h <;> rw [h] <;> decide⟩
  -- the queried entry and its position in the per-language list
  obtain ⟨estar, hestar, hstar⟩ := mem_addOffsets_of_mem ext 0 (packPre ext tasks) p hp
  have hlang : estar.lang = p.lang := congrArg PreEntry.lang hstar
  have htidstar : estar.tid = p.tid := congrArg PreEntry.tid hstar
  have hststar : estar.srcType = p.srcType := congrArg PreEntry.srcType hstar
  have htextstar : estar.text = p.text := congrArg PreEntry.text hstar
  have hesmem : estar ∈ entriesFor (packEntries ext tasks) p.lang :=
    List.mem_filter.mpr ⟨hestar, by rw [beq_iff_eq]; exact hlang⟩
  obtain ⟨⟨i, hi⟩, hieq⟩ := List.mem_iff_get.mp hesmem
  -- the scan hypotheses at position i
  have hhit : ((entriesFor (packEntries ext tasks) p.lang).get ⟨i, hi⟩).tid
      = tidBytes8 ext task_id
      ∧ ((entriesFor (packEntries ext tasks) p.lang).get ⟨i, hi⟩).srcType = p.srcType := by
    rw [hieq]
    exact ⟨by rw [htidstar, htid], hststar⟩
  have hmiss : ∀ j, ∀ hj : j < (entriesFor (packEntries ext tasks) p.lang).length,
      j < i → ¬(((entriesFor (packEntries ext tasks) p.lang).get ⟨j, hj⟩).tid
          = tidBytes8 ext task_id
        ∧ ((entriesFor (packEntries ext tasks) p.lang).get ⟨j, hj⟩).srcType
          = p.srcType) := by
    intro j hj hji ⟨hjt, hjs⟩
    have hjmem : (entriesFor (packEntries ext tasks) p.lang).get ⟨j, hj⟩
        ∈ entriesFor (packEntries ext tasks) p.lang := List.get_mem _ _ _
    have hjE : (entriesFor (packEntries ext tasks) p.lang).get ⟨j, hj⟩
        ∈ packEntries ext tasks := List.mem_of_mem_filter hjmem
    have hjlang : ((entriesFor (packEntries ext tasks) p.lang).get ⟨j, hj⟩).lang
        = p.lang := by
      have := List.of_mem_filter hjmem
      rwa [beq_iff_eq] at this
    have hjkey : ((entriesFor (packEntries ext tasks) p.lang).get ⟨j, hj⟩).toPre.key
        = p.key := by
      unfold PreEntry.key PackEntry.toPre
      rw [show ((⟨((entriesFor (packEntries ext tasks) p.lang).get ⟨j, hj⟩).lang,
        ((entriesFor (packEntries ext tasks) p.lang).get ⟨j, hj⟩).tid,
        ((entriesFor (packEntries ext tasks) p.lang).get ⟨j, hj⟩).text,
        ((entriesFor (packEntries ext tasks) p.lang).get ⟨j, hj⟩).srcType⟩ : PreEntry)).tid
          = ((entriesFor (packEntries ext tasks) p.lang).get ⟨j, hj⟩).tid from rfl]
      rw [hjt, hjlang, hjs, ← htid]
    have hjpre : ((entriesFor (packEntries ext tasks) p.lang).get ⟨j, hj⟩).toPre
        ∈ packPre ext tasks := by
      rw [← addOffsets_map_toPre ext 0 (packPre ext tasks)]
      exact List.mem_map_of_mem PackEntry.toPre hjE
    have hjp : ((entriesFor (packEntries ext tasks) p.lang).get ⟨j, hj⟩).toPre = p :=
      packPre_key_injOn ext tasks hids hkeys _ p hjpre hp hjkey
    have hjstar : (entriesFor (packEntries ext tasks) p.lang).get ⟨j, hj⟩ = estar :=
      packEntries_toPre_injOn ext tasks hids hkeys _ estar hjE hestar
        (by rw [hjp, hstar])
    have hnd : (entriesFor (packEntries ext tasks) p.lang).Nodup :=
      (packEntries_nodup ext tasks hids hkeys).filter _
    have : (⟨j, hj⟩ : Fin (entriesFor (packEntries ext tasks) p.lang).length)
        = ⟨i, hi⟩ :=
      (List.Nodup.get_inj_iff hnd).mp (by rw [hjstar, hieq])
    have : j = i := congrArg Fin.val this
    omega
  -- the data slice of the queried entry
  have hdata0 := addOffsets_data ext (packPre ext tasks) 0 estar hestar
  have hcomp : entryComp ext estar = ext.zcomp (ext.utf8 p.text) := by
    unfold entryComp
    rw [htextstar]
  have hdataslice : byteSlice (pack_multiple_translations ext tasks)
      (packTDO ext tasks + estar.off) (entryComp ext estar).length
      = entryComp ext estar := by
    calc byteSlice (pack_multiple_translations ext tasks)
          (packTDO ext tasks + estar.off) (entryComp ext estar).length
        = byteSlice (((packHdr ext tasks ++ packLI ext tasks) ++ packTI ext tasks)
            ++ packTD ext tasks)
          (((packHdr ext tasks ++ packLI ext tasks) ++ packTI ext tasks).length
            + estar.off) (entryComp ext estar).length := by
          rw [← hblob3, hpre3len]
      _ = byteSlice (packTD ext tasks) estar.off (entryComp ext estar).length :=
          byteSlice_append_shift _ _ _ _
      _ = entryComp ext estar := by
          have h := hdata0.2.2
          rw [Nat.sub_zero] at h
          exact h
  have hdatabound : packTDO ext tasks + estar.off + (entryComp ext estar).length
      ≤ (pack_multiple_translations ext tasks).length := by
    have h := hdata0.2.1
    rw [Nat.zero_add, ← hTDlen] at h
    rw [hlen]
    have : packTDO ext tasks
        = packLangIdxOff ext tasks + (packLI ext tasks).length + (packTI ext tasks).length := by
      rw [packTDO, packTextIdxOff]
    omega
  -- assemble
  have hfound := scanText_found ext (pack_multiple_translations ext tasks)
    (packTDO ext tasks) (tidBytes8 ext task_id) p.srcType
    (packTextIdxOff ext tasks + 20 * countsSum (packEntries ext tasks)
      ((sortedKeys (packEntries ext tasks)).take k))
    (entriesFor (packEntries ext tasks) p.lang) henc
    (fun e he => h8E e (List.mem_of_mem_filter he)) hb i hi hhit hmiss
    (by rw [hieq]; exact hdatabound)
    (by rw [hieq]; exact hdataslice)
    (by rw [hieq, hcomp, htextstar]; exact hdec)
    (by rw [hieq, htextstar]; exact hudec)
    (entriesFor (packEntries ext tasks) p.lang).length 0 (by omega) (Nat.zero_le i)
  rw [hfound, hieq, htextstar]

/-! ### The round trip for one packed entry -/

theorem query_pack_entry (ext : Ext) (tasks : List TaskData)
    (hWF : SourceTextsPresent tasks)
    (hids : (tasks.map fun t => tidBytes8 ext t.task_id).Nodup)
    (hkeys : ∀ t ∈ tasks, (t.original_translations.map Prod.fst).Nodup
      ∧ (t.stt_translations.map Prod.fst).Nodup)
    (hhlt : ∀ l ∈ allLangs tasks, ext.md5h l < 4294967296)
    (hhinj : ∀ l₁ ∈ allLangs tasks, ∀ l₂ ∈ allLangs tasks,
      ext.md5h l₁ = ext.md5h l₂ → l₁ = l₂)
    (hsize : (pack_multiple_translations ext tasks).length < 4294967296)
    (p : PreEntry) (hp : p ∈ packPre ext tasks)
    (task_id : String) (htid : p.tid = tidBytes8 ext task_id)
    (source_type : String) (hst : sourceTypeCode source_type = some p.srcType)
    (hdec : ext.zdecomp (ext.zcomp (ext.utf8 p.text)) = some (ext.utf8 p.text))
    (hudec : ext.utf8Dec (ext.utf8 p.text) = some p.text) :
    query_text ext (pack_multiple_translations ext tasks) p.lang task_id source_type
      = some p.text := by
  have hlk : p.lang ∈ langKeys (packEntries ext tasks) :=
    (mem_langKeys_iff ext tasks p.lang).mpr ⟨p, hp, rfl⟩
  have hne : ¬(allLangs tasks).isEmpty = true := by
    intro h
    rw [List.isEmpty_eq_true] at h
    have hmem := langKeys_sub_allLangs ext tasks p.lang hlk
    rw [h] at hmem
    exact absurd hmem (List.not_mem_nil _)
  have hlen := pack_length_eq ext tasks hne
  have hKeq := sortedKeys_length ext tasks hWF
  have hLIlen : (packLI ext tasks).length
      = 12 * (sortedKeys (packEntries ext tasks)).length :=
    langIndexBytes_length ext (packEntries ext tasks) _ 0
  have hLIOge : 16 ≤ packLangIdxOff ext tasks := by
    rw [packLangIdxOff]
    omega
  have hlen16 : ¬(pack_multiple_translations ext tasks).length < 16 := by
    rw [hlen]
    omega
  have hK32 : (allLangs tasks).length < 4294967296 := by
    rw [← hKeq]
    omega
  have hLIO32 : packLangIdxOff ext tasks < 4294967296 := by omega
  have hTDO32 : packTDO ext tasks < 4294967296 := by
    rw [packTDO, packTextIdxOff]
    omega
  -- the header reads
  have hbA : pack_multiple_translations ext tasks
      = le32 4 ++ (le32 (allLangs tasks).length ++ (le32 (packLangIdxOff ext tasks)
        ++ (le32 (packTDO ext tasks) ++ (packTable ext tasks ++ (packLI ext tasks
          ++ (packTI ext tasks ++ packTD ext tasks)))))) := by
    rw [pack_eq_parts ext tasks hne]
    simp [packHdr, List.append_assoc]
  have hread4 : readLE32 (pack_multiple_translations ext tasks) 4
      = (allLangs tasks).length := by
    rw [hbA]
    exact readLE32_append_at (le32 4) _ _ hK32
  have hread8 : readLE32 (pack_multiple_translations ext tasks) 8
      = packLangIdxOff ext tasks := by
    rw [hbA, ← List.append_assoc (le32 4) (le32 (allLangs tasks).length)]
    exact readLE32_append_at (le32 4 ++ le32 (allLangs tasks).length) _ _ hLIO32
  have hread12 : readLE32 (pack_multiple_translations ext tasks) 12
      = packTDO ext tasks := by
    rw [hbA, ← List.append_assoc (le32 4) (le32 (allLangs tasks).length),
      ← List.append_assoc (le32 4 ++ le32 (allLangs tasks).length) (le32 (packLangIdxOff ext tasks))]
    exact readLE32_append_at
      ((le32 4 ++ le32 (allLangs tasks).length) ++ le32 (packLangIdxOff ext tasks)) _ _ hTDO32
  -- the language scan
  obtain ⟨k, hk, hkeq, hscan⟩ :=
    pack_langScan ext tasks hWF hhlt hhinj hsize p.lang hlk
  -- the text scan
  have htext := pack_textScan ext tasks hids hkeys hsize p hp task_id htid hdec hudec
    k hk hkeq
  -- the base offset used by the query equals the text-index position
  have hbase : packLangIdxOff ext tasks + (allLangs tasks).length * 12
      + 20 * countsSum (packEntries ext tasks)
          ((sortedKeys (packEntries ext tasks)).take k)
      = packTextIdxOff ext tasks + 20 * countsSum (packEntries ext tasks)
          ((sortedKeys (packEntries ext tasks)).take k) := by
    rw [packTextIdxOff, hLIlen, hKeq]
    ring
  -- assemble the query
  have hqE : query_textE ext (pack_multiple_translations ext tasks) p.lang task_id
      source_type = .ok (some p.text) := by
    unfold query_textE
    rw [if_neg hlen16, hread8, hread4, hscan]
    show (match sourceTypeCode source_type with
      | none => Except.ok none
      | some code =>
        scanText ext (pack_multiple_translations ext tasks)
          (readLE32 (pack_multiple_translations ext tasks) 12)
          (tidBytes8 ext task_id) code
          (packLangIdxOff ext tasks + (allLangs tasks).length * 12
            + 20 * countsSum (packEntries ext tasks)
                ((sortedKeys (packEntries ext tasks)).take k))
          (entriesFor (packEntries ext tasks) p.lang).length 0)
      = Except.ok (some p.text)
    rw [hst, hread12, hbase]
    exact htext
  unfold query_text
  rw [hqE]

/-! ### C1: the pack/query round trip -/

/-- C1 counterexample: a triple present in an input translation map is not
always recoverable.  For the single task
`{task_id: "t", original_text: None, original_translations: {"a": "X"},
stt_text: "s", stt_translations: {"a": "Y"}}`, the pair `("a", "X")` is in the
input `original_translations`, but `query(pack([task]), "a", "t", "TEXT")`
returns `None`: the pack loop skips translation maps whose source text is
falsy (line 83), so nothing is packed for that triple. -/
theorem pack_query_roundtrip_counterexample :
    (("a", "X") ∈ (⟨"t", none, [("a", "X")], some "s", [("a", "Y")]⟩ :
        TaskData).original_translations) ∧
      query_text asciiExt (pack_multiple_translations asciiExt
          [⟨"t", none, [("a", "X")], some "s", [("a", "Y")]⟩]) "a" "t" "TEXT"
        = none := by
  constructor
  · decide
  · rfl

/-- C1 amended: the round trip holds for the triples the pack loop actually
stores.  For every input list in which each non-empty translation map comes
with its (truthy) source text, with pairwise-distinct padded task ids and
duplicate-free per-task language keys, and for externals whose language hash
is 32-bit and collision-free on the input languages, whose language codes fit
the format's `u16` length field, and whose compress/decode round trip succeeds
on the queried text (with the blob within the `u32` range of the format),
querying the packed blob with a stored
triple's language, full task id and source-type name returns exactly the
packed UTF-8 string. -/
theorem pack_query_roundtrip (ext : Ext) (tasks : List TaskData)
    (hWF : SourceTextsPresent tasks)
    (hids : (tasks.map fun t => tidBytes8 ext t.task_id).Nodup)
    (hkeys : ∀ t ∈ tasks, (t.original_translations.map Prod.fst).Nodup
      ∧ (t.stt_translations.map Prod.fst).Nodup)
    (hhlt : ∀ l ∈ allLangs tasks, ext.md5h l < 4294967296)
    (hhinj : ∀ l₁ ∈ allLangs tasks, ∀ l₂ ∈ allLangs tasks,
      ext.md5h l₁ = ext.md5h l₂ → l₁ = l₂)
    (_hcodes : ∀ l ∈ allLangs tasks, (ext.utf8 l).length < 65536)
    (hsize : (pack_multiple_translations ext tasks).length < 4294967296) :
    ∀ t ∈ tasks, ∀ l x : String,
      ((l, x) ∈ t.original_translations →
        ext.zdecomp (ext.zcomp (ext.utf8 x)) = some (ext.utf8 x) →
        ext.utf8Dec (ext.utf8 x) = some x →
        query_text ext (pack_multiple_translations ext tasks) l t.task_id "TEXT"
          = some x) ∧
      ((l, x) ∈ t.stt_translations →
        ext.zdecomp (ext.zcomp (ext.utf8 x)) = some (ext.utf8 x) →
        ext.utf8Dec (ext.utf8 x) = some x →
        query_text ext (pack_multiple_translations ext tasks) l t.task_id "AUDIO"
          = some x) := by
  intro t ht l x
  constructor
  · intro hlx hdec hudec
    have htr : truthyS t.original_text = true :=
      (hWF t ht).1 (List.ne_nil_of_mem hlx)
    have hp : (⟨l, tidBytes8 ext t.task_id, x, 0⟩ : PreEntry) ∈ packPre ext tasks :=
      List.mem_flatMap.mpr ⟨t, ht, orig_mem_taskPre ext t htr l x hlx⟩
    exact query_pack_entry ext tasks hWF hids hkeys hhlt hhinj hsize
      ⟨l, tidBytes8 ext t.task_id, x, 0⟩ hp t.task_id rfl "TEXT" rfl hdec hudec
  · intro hlx hdec hudec
    have htr : truthyS t.stt_text = true :=
      (hWF t ht).2 (List.ne_nil_of_mem hlx)
    have hp : (⟨l, tidBytes8 ext t.task_id, x, 1⟩ : PreEntry) ∈ packPre ext tasks :=
      List.mem_flatMap.mpr ⟨t, ht, stt_mem_taskPre ext t htr l x hlx⟩
    exact query_pack_entry ext tasks hWF hids hkeys hhlt hhinj hsize
      ⟨l, tidBytes8 ext t.task_id, x, 1⟩ hp t.task_id rfl "AUDIO" rfl hdec hudec

set_option maxRecDepth 8192 in
/-- Witness for the amended C1 at a concrete two-task input. -/
theorem pack_query_roundtrip_witness :
    (("a", "hello") ∈ (⟨"task1", some "src", [("a", "hello"), ("bb", "welt")],
        some "stt", [("a", "yo")]⟩ : TaskData).original_translations) ∧
      query_text asciiExt (pack_multiple_translations asciiExt
          [⟨"task1", some "src", [("a", "hello"), ("bb", "welt")],
            some "stt", [("a", "yo")]⟩,
           ⟨"task2", some "o2", [("bb", "zwei")], none, []⟩])
          "a" "task1" "TEXT"
        = some "hello" :=
  ⟨by decide,
    (pack_query_roundtrip asciiExt
      [⟨"task1", some "src", [("a", "hello"), ("bb", "welt")],
        some "stt", [("a", "yo")]⟩,
       ⟨"task2", some "o2", [("bb", "zwei")], none, []⟩]
      (by unfold SourceTextsPresent; decide)
      (by decide) (by decide) (by decide) (by decide) (by decide) (by decide)
      ⟨"task1", some "src", [("a", "hello"), ("bb", "welt")],
        some "stt", [("a", "yo")]⟩ (by decide) "a" "hello").1
      (by decide) (by decide) (by decide)⟩

/-! ### C6: task-id truncation -/

/-- C6: task ids are truncated to their first 8 UTF-8 bytes, NUL-padded, at
pack time (line 80); the query side (line 211) applies the byte-identical
rule, so the stored id bytes of every packed entry equal the bytes the query
computes from the full-length task id — the query's comparison matches —
and, under the round-trip conditions of the amended C1, a query with the
full-length long task id returns the packed text. -/
theorem task_id_truncation (ext : Ext) (s : String) :
    queryTidBytes8 ext s = tidBytes8 ext s ∧
    (tidBytes8 ext s).length = 8 ∧
    (8 ≤ (ext.utf8 s).length → tidBytes8 ext s = (ext.utf8 s).take 8) ∧
    (∀ t : TaskData, t.task_id = s → ∀ e ∈ taskPre ext t,
      e.tid = queryTidBytes8 ext s) ∧
    (∀ tasks : List TaskData, SourceTextsPresent tasks →
      (tasks.map fun t => tidBytes8 ext t.task_id).Nodup →
      (∀ t ∈ tasks, (t.original_translations.map Prod.fst).Nodup
        ∧ (t.stt_translations.map Prod.fst).Nodup) →
      (∀ l ∈ allLangs tasks, ext.md5h l < 4294967296) →
      (∀ l₁ ∈ allLangs tasks, ∀ l₂ ∈ allLangs tasks,
        ext.md5h l₁ = ext.md5h l₂ → l₁ = l₂) →
      (∀ l ∈ allLangs tasks, (ext.utf8 l).length < 65536) →
      (pack_multiple_translations ext tasks).length < 4294967296 →
      ∀ t ∈ tasks, t.task_id = s → 8 < (ext.utf8 s).length →
      ∀ l x : String, (l, x) ∈ t.original_translations →
        ext.zdecomp (ext.zcomp (ext.utf8 x)) = some (ext.utf8 x) →
        ext.utf8Dec (ext.utf8 x) = some x →
        query_text ext (pack_multiple_translations ext tasks) l s "TEXT"
          = some x) := by
  refine ⟨rfl, tidBytes8_length ext s, ?_, ?_, ?_⟩
  · intro h8
    show (ext.utf8 s).take 8 ++ List.replicate (8 - ((ext.utf8 s).take 8).length) 0
        = (ext.utf8 s).take 8
    have hlen : ((ext.utf8 s).take 8).length = 8 := by
      rw [List.length_take]
      omega
    rw [hlen]
    simp
  · intro t hts e he
    rw [mem_taskPre_tid ext t e he, hts]
    rfl
  · intro tasks hWF hids hkeys hhlt hhinj _hcodes hsize t ht hts _ l x hlx hdec hudec
    have htr : truthyS t.original_text = true :=
      (hWF t ht).1 (List.ne_nil_of_mem hlx)
    have hp : (⟨l, tidBytes8 ext t.task_id, x, 0⟩ : PreEntry) ∈ packPre ext tasks :=
      List.mem_flatMap.mpr ⟨t, ht, orig_mem_taskPre ext t htr l x hlx⟩
    have := query_pack_entry ext tasks hWF hids hkeys hhlt hhinj hsize
      ⟨l, tidBytes8 ext t.task_id, x, 0⟩ hp t.task_id rfl "TEXT" rfl hdec hudec
    rwa [hts] at this

set_option maxRecDepth 8192 in
/-- Witness for C6 at a task id whose UTF-8 encoding is 17 bytes long. -/
theorem task_id_truncation_witness :
    8 ≤ (asciiExt.utf8 "very_long_task_id").length ∧
      tidBytes8 asciiExt "very_long_task_id"
        = (asciiExt.utf8 "very_long_task_id").take 8 ∧
      query_text asciiExt (pack_multiple_translations asciiExt
          [⟨"very_long_task_id", some "x", [("a", "T")], none, []⟩])
          "a" "very_long_task_id" "TEXT"
        = some "T" :=
  ⟨by decide,
    (task_id_truncation asciiExt "very_long_task_id").2.2.1 (by decide),
    (task_id_truncation asciiExt "very_long_task_id").2.2.2.2
      [⟨"very_long_task_id", some "x", [("a", "T")], none, []⟩]
      (by unfold SourceTextsPresent; decide)
      (by decide) (by decide) (by decide) (by decide) (by decide) (by decide)
      ⟨"very_long_task_id", some "x", [("a", "T")], none, []⟩
      (by decide) rfl (by decide) "a" "T" (by decide) (by decide) (by decide)⟩

end Giggle
